/-
Verification of the Cards-War round engine (src/cards_war.py) against its
specification.  The Python source is shallowly embedded: classes become
structures, in-place mutation becomes explicit state passing, `random.shuffle`
becomes an explicit `shuffle : List Card → List Card` parameter (theorems that
depend on shuffling assume it returns a permutation of its input), and code
that can raise (deque.popleft on an empty deque, list indexing out of range)
returns `Option` / an error constructor.
-/
import Mathlib

/-! ## Card (class Card) -/

/-- Source `class Card`: a rank (`number`, 1..13 for real cards) and a suit
(`color`).  The default constructor `Card()` builds the rank-0 sentinel. -/
structure Card where
  number : Nat
  color : String
deriving DecidableEq

/-- Source `Card()` — the rank-0 sentinel returned when a player has no cards. -/
def Card.sentinel : Card := ⟨0, "0"⟩

/-- Source `Card.__gt__`: comparison by rank only. -/
def Card.gtCard (a b : Card) : Bool := b.number < a.number

/-- Source `Card.__eq__`: equality by rank only. -/
def Card.eqCard (a b : Card) : Bool := a.number = b.number

/-! ## Player (class Player) -/

/-- Source `class Player`: a draw queue `hand` (a `deque` with `maxlen=56`) and a
`won_cards` pile. -/
structure Player where
  name : String
  hand : List Card
  won_cards : List Card
deriving DecidableEq

/-- Source `deque(l, maxlen=n)`: when `l` is longer than `n`, only the last `n`
elements are kept (elements are dropped from the left). -/
def dequeMax (n : Nat) (l : List Card) : List Card := l.drop (l.length - n)

/-- Source `Player.__init__`: empty hand and won pile. -/
def Player.mk0 (name : String) : Player := ⟨name, [], []⟩

/-- Source `Player.score`: number of cards in hand plus won pile. -/
def Player.score (p : Player) : Nat := p.hand.length + p.won_cards.length

/-- Source `Player.refill_hand`: shuffle `won_cards`, REPLACE `hand` by the result
(as a deque with `maxlen=56`), clear `won_cards`. -/
def Player.refill_hand (shuffle : List Card → List Card) (p : Player) : Player :=
  { p with hand := dequeMax 56 (shuffle p.won_cards), won_cards := [] }

/-- Source `Player.isEmptyHand`. -/
def Player.isEmptyHand (p : Player) : Bool := p.hand.isEmpty

/-- Source `Player.playCard`: score 0 returns the sentinel without mutation;
otherwise refill first when the hand is empty, then `popleft` the hand.
`none` models the `IndexError` of `popleft` on an empty deque (unreachable
when `shuffle` really permutes). -/
def Player.playCard (shuffle : List Card → List Card) (p : Player) :
    Option (Card × Player) :=
  if p.score = 0 then some (Card.sentinel, p)
  else
    let q := if p.isEmptyHand then p.refill_hand shuffle else p
    match q.hand with
    | [] => none
    | c :: rest => some (c, { q with hand := rest })

/-- A shuffle function that returns a permutation of its input, as
`random.shuffle` does. -/
def validShuffle (shuffle : List Card → List Card) : Prop :=
  ∀ l : List Card, (shuffle l).Perm l

/-- The multiset of cards a player holds. -/
def Player.cards (p : Player) : List Card := p.hand ++ p.won_cards

/-! ### basic Player lemmas -/

theorem dequeMax_of_le {n : Nat} {l : List Card} (h : l.length ≤ n) :
    dequeMax n l = l := by
  unfold dequeMax
  have : l.length - n = 0 := Nat.sub_eq_zero_of_le h
  rw [this, List.drop_zero]

theorem dequeMax_sublist (n : Nat) (l : List Card) : (dequeMax n l).Sublist l :=
  List.drop_sublist _ _

theorem dequeMax_length_pos {n : Nat} {l : List Card} (hn : 0 < n)
    (hl : l ≠ []) : 0 < (dequeMax n l).length := by
  unfold dequeMax
  rw [List.length_drop]
  have hlen : 0 < l.length := List.length_pos.mpr hl
  omega

/-- Source `playCard` on a score-0 player: sentinel, no mutation. -/
theorem playCard_zero {shuffle : List Card → List Card} {p : Player}
    (h : p.score = 0) : p.playCard shuffle = some (Card.sentinel, p) := by
  unfold Player.playCard
  rw [if_pos h]

/-- Source `playCard` on a player with a non-empty hand pops its front (FIFO). -/
theorem playCard_cons {shuffle : List Card → List Card} {p : Player}
    {c : Card} {rest : List Card} (h : p.hand = c :: rest) :
    p.playCard shuffle = some (c, { p with hand := rest }) := by
  have hs : p.score ≠ 0 := by
    unfold Player.score
    rw [h]
    simp
  have he : p.isEmptyHand = false := by
    unfold Player.isEmptyHand
    rw [h]
    rfl
  unfold Player.playCard
  rw [if_neg hs]
  simp only [he, Bool.false_eq_true, if_false, h]

/-- Source `playCard` on an empty hand but non-zero score refills first, then pops
the front of the refilled queue. -/
theorem playCard_refill {shuffle : List Card → List Card} {p : Player}
    (hh : p.hand = []) (hs : p.score ≠ 0)
    (hperm : (shuffle p.won_cards).Perm p.won_cards) :
    ∃ c rest, dequeMax 56 (shuffle p.won_cards) = c :: rest ∧
      p.playCard shuffle = some (c, ⟨p.name, rest, []⟩) := by
  have hw : p.won_cards ≠ [] := by
    intro hcon
    apply hs
    unfold Player.score
    rw [hh, hcon]
    rfl
  have hsne : shuffle p.won_cards ≠ [] := by
    intro hcon
    exact hw (hcon ▸ hperm).symm.eq_nil
  have hdq : 0 < (dequeMax 56 (shuffle p.won_cards)).length :=
    dequeMax_length_pos (by omega) hsne
  obtain ⟨c, rest, hcr⟩ : ∃ c rest, dequeMax 56 (shuffle p.won_cards) = c :: rest := by
    cases hdqe : dequeMax 56 (shuffle p.won_cards) with
    | nil => rw [hdqe] at hdq; simp at hdq
    | cons c rest => exact ⟨c, rest, rfl⟩
  refine ⟨c, rest, hcr, ?_⟩
  have he : p.isEmptyHand = true := by
    unfold Player.isEmptyHand
    rw [hh]
    rfl
  unfold Player.playCard
  rw [if_neg hs]
  simp only [he, if_pos]
  unfold Player.refill_hand
  simp only [hcr]

/-- The three possible shapes of a `playCard` call (under a permuting
shuffle): sentinel on score 0, FIFO pop on a non-empty hand, refill-then-pop
on an empty hand with a non-empty won pile. -/
theorem playCard_cases {shuffle : List Card → List Card} {p : Player}
    (hperm : (shuffle p.won_cards).Perm p.won_cards) :
    (p.score = 0 ∧ p.playCard shuffle = some (Card.sentinel, p)) ∨
    (∃ c rest, p.hand = c :: rest ∧
      p.playCard shuffle = some (c, { p with hand := rest })) ∨
    (p.hand = [] ∧ p.score ≠ 0 ∧
      ∃ c rest, dequeMax 56 (shuffle p.won_cards) = c :: rest ∧
        p.playCard shuffle = some (c, ⟨p.name, rest, []⟩)) := by
  by_cases hs : p.score = 0
  · exact Or.inl ⟨hs, playCard_zero hs⟩
  · cases hh : p.hand with
    | nil =>
        obtain ⟨c, rest, hcr, heq⟩ := playCard_refill hh hs hperm
        exact Or.inr (Or.inr ⟨rfl, hs, c, rest, hcr, heq⟩)
    | cons c rest => exact Or.inr (Or.inl ⟨c, rest, rfl, playCard_cons hh⟩)

/-- Source `playCard` never raises under a permuting shuffle. -/
theorem playCard_total {shuffle : List Card → List Card} {p : Player}
    (hperm : (shuffle p.won_cards).Perm p.won_cards) :
    ∃ c p', p.playCard shuffle = some (c, p') := by
  rcases playCard_cases hperm with ⟨_, h⟩ | ⟨c, rest, _, h⟩ | ⟨_, _, c, rest, _, h⟩
  · exact ⟨_, _, h⟩
  · exact ⟨_, _, h⟩
  · exact ⟨_, _, h⟩

/-- Source `playCard` never increases the player's card count. -/
theorem playCard_score_le {shuffle : List Card → List Card} {p p' : Player}
    {c : Card} (hperm : (shuffle p.won_cards).Perm p.won_cards)
    (h : p.playCard shuffle = some (c, p')) : p'.score ≤ p.score := by
  rcases playCard_cases hperm with ⟨_, h0⟩ | ⟨c', rest, hh, h0⟩ |
    ⟨hh, _, c', rest, hcr, h0⟩ <;> rw [h0] at h <;>
    injection h with h <;> injection h with h1 h2 <;> subst h2
  · exact Nat.le_refl _
  · unfold Player.score
    rw [hh]
    simp
  · have hlen : (c' :: rest).length ≤ (shuffle p.won_cards).length := by
      rw [← hcr]
      exact (dequeMax_sublist _ _).length_le
    have hwlen : (shuffle p.won_cards).length = p.won_cards.length :=
      hperm.length_eq
    unfold Player.score at *
    rw [hh]
    simp only [List.length_cons, List.length_nil] at *
    omega

/-- A player who still holds cards loses exactly the played card's slot:
the score strictly decreases. -/
theorem playCard_score_lt {shuffle : List Card → List Card} {p p' : Player}
    {c : Card} (hperm : (shuffle p.won_cards).Perm p.won_cards)
    (hs : p.score ≠ 0) (h : p.playCard shuffle = some (c, p')) :
    p'.score < p.score := by
  rcases playCard_cases hperm with ⟨h0, _⟩ | ⟨c', rest, hh, h0⟩ |
    ⟨hh, _, c', rest, hcr, h0⟩
  · exact absurd h0 hs
  · rw [h0] at h
    injection h with h
    injection h with h1 h2
    subst h2
    unfold Player.score
    rw [hh]
    simp
  · rw [h0] at h
    injection h with h
    injection h with h1 h2
    subst h2
    have hlen : (c' :: rest).length ≤ (shuffle p.won_cards).length := by
      rw [← hcr]
      exact (dequeMax_sublist _ _).length_le
    have hwlen : (shuffle p.won_cards).length = p.won_cards.length :=
      hperm.length_eq
    unfold Player.score at *
    rw [hh] at *
    simp only [List.length_cons, List.length_nil] at *
    omega

/-- Cards held after a play were held before: nothing enters the player. -/
theorem playCard_cards_subset {shuffle : List Card → List Card} {p p' : Player}
    {c : Card} (hperm : (shuffle p.won_cards).Perm p.won_cards)
    (h : p.playCard shuffle = some (c, p')) :
    ∀ x ∈ p'.cards, x ∈ p.cards := by
  rcases playCard_cases hperm with ⟨_, h0⟩ | ⟨c', rest, hh, h0⟩ |
    ⟨hh, _, c', rest, hcr, h0⟩ <;> rw [h0] at h <;>
    injection h with h <;> injection h with h1 h2 <;> subst h2 <;>
    intro x hx
  · exact hx
  · unfold Player.cards at *
    rw [hh]
    simp only [List.mem_append, List.mem_cons] at *
    tauto
  · unfold Player.cards at *
    simp only [List.append_nil] at hx
    have hx' : x ∈ shuffle p.won_cards := by
      apply (dequeMax_sublist 56 (shuffle p.won_cards)).mem
      rw [hcr]
      exact List.mem_cons_of_mem _ hx
    rw [hh]
    simp only [List.nil_append]
    exact hperm.mem_iff.mp hx'

/-- A non-sentinel branch plays a card the player actually held. -/
theorem playCard_card_mem {shuffle : List Card → List Card} {p p' : Player}
    {c : Card} (hperm : (shuffle p.won_cards).Perm p.won_cards)
    (hs : p.score ≠ 0) (h : p.playCard shuffle = some (c, p')) :
    c ∈ p.cards := by
  rcases playCard_cases hperm with ⟨h0, _⟩ | ⟨c', rest, hh, h0⟩ |
    ⟨hh, _, c', rest, hcr, h0⟩
  · exact absurd h0 hs
  · rw [h0] at h
    injection h with h
    injection h with h1 h2
    rw [← h1]
    unfold Player.cards
    rw [hh]
    exact List.mem_append_left _ (List.mem_cons_self _ _)
  · rw [h0] at h
    injection h with h
    injection h with h1 h2
    rw [← h1]
    have hx' : c' ∈ shuffle p.won_cards := by
      apply (dequeMax_sublist 56 (shuffle p.won_cards)).mem
      rw [hcr]
      exact List.mem_cons_self _ _
    unfold Player.cards
    rw [hh]
    simp only [List.nil_append]
    exact hperm.mem_iff.mp hx'

/-- With all real cards (no rank-0 card held), a rank-0 play means the
score-0 sentinel branch: the player is untouched. -/
theorem playCard_zero_card {shuffle : List Card → List Card} {p p' : Player}
    {c : Card} (hperm : (shuffle p.won_cards).Perm p.won_cards)
    (hz : ∀ x ∈ p.cards, x.number ≠ 0) (hc : c.number = 0)
    (h : p.playCard shuffle = some (c, p')) : p.score = 0 ∧ p' = p := by
  by_cases hs : p.score = 0
  · rw [playCard_zero hs] at h
    injection h with h
    injection h with h1 h2
    exact ⟨hs, h2.symm⟩
  · exact absurd hc (hz c (playCard_card_mem hperm hs h))

/-- Full conservation for the in-game call shapes: the played card plus the
player's remaining cards is a permutation of the cards held before (needs
the won pile to fit the 56-slot deque, true whenever at most 52 cards are in
play). -/
theorem playCard_perm {shuffle : List Card → List Card} {p p' : Player}
    {c : Card} (hperm : (shuffle p.won_cards).Perm p.won_cards)
    (hw : p.won_cards.length ≤ 56) (hs : p.score ≠ 0)
    (h : p.playCard shuffle = some (c, p')) :
    (c :: p'.cards).Perm p.cards := by
  rcases playCard_cases hperm with ⟨h0, _⟩ | ⟨c', rest, hh, h0⟩ |
    ⟨hh, _, c', rest, hcr, h0⟩
  · exact absurd h0 hs
  · rw [h0] at h
    injection h with h
    injection h with h1 h2
    subst h1
    subst h2
    unfold Player.cards
    rw [hh]
    simp
  · rw [h0] at h
    injection h with h
    injection h with h1 h2
    subst h1
    subst h2
    have hsl : (shuffle p.won_cards).length ≤ 56 := by
      rw [hperm.length_eq]
      exact hw
    have : dequeMax 56 (shuffle p.won_cards) = shuffle p.won_cards :=
      dequeMax_of_le hsl
    rw [this] at hcr
    unfold Player.cards
    rw [hh]
    simp only [List.append_nil, List.nil_append]
    rw [← hcr]
    exact hperm


/-! ## cardsWar (class cardsWar) -/

/-- One scoreboard row: the round number, each player's score in player
order, and the `Total` column. -/
structure Row where
  round : Nat
  playerScores : List Nat
  total : Nat
deriving DecidableEq

/-- Source `class cardsWar`: players, global round counter, the polars score
DataFrame (as an append-only list of rows) and `latestResults`. -/
structure cardsWar where
  players : List Player
  round : Nat
  score : List Row
  latestResults : Option Row
deriving DecidableEq

/-- Source `cardsWar.__init__`: `assert playersCount >= 2 and 56 % playersCount == 0`
before any player is created; failure of the assert (`none`) creates no
state.  On success: fresh players, round 0, empty score table. -/
def mkCardsWar (playersCount : Nat) : Option cardsWar :=
  if 2 ≤ playersCount ∧ 56 % playersCount = 0 then
    some { players := (List.range playersCount).map
             (fun i => Player.mk0 ("Player " ++ toString (i + 1))),
           round := 0, score := [], latestResults := none }
  else none

/-- The 52-card deck as built by `CreateShuffleDeck` before shuffling:
`[Card(num+1, color) for num in range(13) for color in [...]]`. -/
def baseDeck : List Card :=
  (List.range 13).flatMap
    (fun num => ["BC", "BS", "RD", "RH"].map (fun color => Card.mk (num + 1) color))

/-- Source `cardsWar.CreateShuffleDeck`: build the 52-card deck and shuffle it. -/
def CreateShuffleDeck (shuffle : List Card → List Card) : List Card :=
  shuffle baseDeck

/-- The loop body of `distributeCards`: `enumerate(self.players)` with
running index `i`, extending each hand with `deck[i*cpp : (i+1)*cpp]`. -/
def distributeAux (deck : List Card) (cpp : Nat) : Nat → List Player → List Player
  | _, [] => []
  | i, p :: rest =>
      { p with hand := dequeMax 56 (p.hand ++ ((deck.drop (i * cpp)).take cpp)) } ::
        distributeAux deck cpp (i + 1) rest

/-- Source `cardsWar.distributeCards`: deal `len(deck) // len(players)` contiguous
cards to each player in order. -/
def distributeCards (shuffle : List Card → List Card) (g : cardsWar) : cardsWar :=
  let deck := CreateShuffleDeck shuffle
  let cardsPerPlayer := deck.length / g.players.length
  { g with players := distributeAux deck cardsPerPlayer 0 g.players }

/-- Source `player.playCard()` on the player at (global) index `i`, writing the
mutated player back.  `none` models an uncaught exception. -/
def playCardAt (shuffle : List Card → List Card) (g : cardsWar) (i : Nat) :
    Option (Card × cardsWar) :=
  match g.players[i]? with
  | none => none
  | some p =>
      match p.playCard shuffle with
      | none => none
      | some (c, p') => some (c, { g with players := g.players.set i p' })

/-- Source `cardsWar.get_played_cards`: one `playCard()` per active player, in
player order (active players are named by their index in `self.players`). -/
def get_played_cards (shuffle : List Card → List Card) (g : cardsWar) :
    List Nat → Option (List Card × cardsWar)
  | [] => some ([], g)
  | i :: rest =>
      match playCardAt shuffle g i with
      | none => none
      | some (c, g') =>
          match get_played_cards shuffle g' rest with
          | none => none
          | some (cs, g'') => some (c :: cs, g'')

/-- The loop of `cardsWar.find_winning_players`: scan the played cards,
skipping rank 0, keeping the set of indices that played the current highest
rank. -/
def findWinningAux : List (Nat × Card) → List Nat → Card → List Nat
  | [], winners, _ => winners
  | (i, c) :: rest, winners, highest =>
      if c.number = 0 then findWinningAux rest winners highest
      else if c.gtCard highest then findWinningAux rest [i] c
      else if c.eqCard highest then findWinningAux rest (winners ++ [i]) highest
      else findWinningAux rest winners highest

/-- Source `cardsWar.find_winning_players` over active-player indices. -/
def find_winning_players (active : List Nat) (playedCards : List Card) : List Nat :=
  findWinningAux (active.zip playedCards) [] Card.sentinel

/-- The row `update_scoreboard` builds: current round, every player's score,
and their sum as `Total`. -/
def mkRow (g : cardsWar) : Row :=
  { round := g.round, playerScores := g.players.map Player.score,
    total := (g.players.map Player.score).sum }

/-- Source `cardsWar.update_scoreboard`: record the row in `latestResults` and
append it to the score table (`DataFrame.extend`). -/
def update_scoreboard (g : cardsWar) : cardsWar :=
  { g with latestResults := some (mkRow g), score := g.score ++ [mkRow g] }

/-- Source `cardsWar.award_cards`: extend the winner's won pile with the
non-sentinel played cards, then the non-sentinel field cards. -/
def award_cards (g : cardsWar) (w : Nat) (playedCards field : List Card) :
    cardsWar :=
  match g.players[w]? with
  | none => g
  | some p =>
      let p' : Player :=
        { p with won_cards := p.won_cards ++
            playedCards.filter (fun c => decide (c.number ≠ 0)) ++
            field.filter (fun c => decide (c.number ≠ 0)) }
      { g with players := g.players.set w p' }

/-- Outcome of `playRound`: normal return, the `IndexError` of
`winingPlayers[0]` on an empty winner set (carrying the state and active set
at the raise), an exception from a `playCard` call, or fuel exhaustion of
the embedding (never reached with enough fuel, see the termination
theorem). -/
inductive RRes where
  | ok : cardsWar → RRes
  | idxErr : cardsWar → List Nat → RRes
  | popErr : RRes
  | noFuel : RRes
deriving DecidableEq

/-- Source `cardsWar.playRound` (with `breakDraw` inlined at its only call site):
bump the round counter, collect played cards, find the winners; on a tie
extend the field with the played cards plus one extra card per tied player
and recurse on the tied players; on a unique winner award and append a
scoreboard row; on no winner raise (`winingPlayers[0]`). -/
def playRound (shuffle : List Card → List Card) :
    Nat → cardsWar → List Nat → List Card → RRes
  | 0, _, _, _ => RRes.noFuel
  | fuel + 1, g, active, field =>
      let g1 := { g with round := g.round + 1 }
      match get_played_cards shuffle g1 active with
      | none => RRes.popErr
      | some (playedCards, g2) =>
          let winners := find_winning_players active playedCards
          if 1 < winners.length then
            match get_played_cards shuffle g2 winners with
            | none => RRes.popErr
            | some (warDraws, g3) =>
                playRound shuffle fuel g3 winners (field ++ playedCards ++ warDraws)
          else
            match winners with
            | [] => RRes.idxErr g2 active
            | w :: _ => RRes.ok (update_scoreboard (award_cards g2 w playedCards field))

/-- Source `cardsWar.isWinner`: some player holds at least 52 cards. -/
def isWinner (g : cardsWar) : Bool := g.players.any (fun p => 52 ≤ p.score)

/-- Outcome of the `playGame` while-loop. -/
inductive GRes where
  | ok : cardsWar → GRes
  | err : GRes
  | noFuel : GRes
deriving DecidableEq

/-- Fuel that the round-termination theorem proves sufficient for one
`playRound` call from `g`: one more than the cards in play. -/
def roundFuel (g : cardsWar) : Nat := (g.players.map Player.score).sum + 1

/-- The `while not self.isWinner(): self.playRound(self.players, [])` loop. -/
def playGameLoop (shuffle : List Card → List Card) : Nat → cardsWar → GRes
  | 0, _ => GRes.noFuel
  | fuel + 1, g =>
      if isWinner g then GRes.ok g
      else
        match playRound shuffle (roundFuel g) g (List.range g.players.length) [] with
        | RRes.ok g' => playGameLoop shuffle fuel g'
        | RRes.noFuel => GRes.noFuel
        | _ => GRes.err

/-- Source `cardsWar.playGame`: deal once, record the round-0 row, loop until a
player holds the whole deck.  (CSV export is out of scope.) -/
def playGame (shuffle : List Card → List Card) (fuel : Nat) (g : cardsWar) : GRes :=
  playGameLoop shuffle fuel (update_scoreboard (distributeCards shuffle g))

/-! ### derived state functions -/

/-- Score of the player at index `i` (0 when out of range). -/
def scoreAt (g : cardsWar) (i : Nat) : Nat :=
  match g.players[i]? with
  | none => 0
  | some p => p.score

/-- Total score of a set of player indices. -/
def sumScores (g : cardsWar) (active : List Nat) : Nat :=
  (active.map (scoreAt g)).sum

/-- No player holds a rank-0 card (true of every state reachable from a
real 52-card deal: the deck has ranks 1..13 only, and awards filter rank 0
out). -/
def noZero (g : cardsWar) : Prop :=
  ∀ p ∈ g.players, ∀ c ∈ p.cards, c.number ≠ 0

/-! ### list and state helper lemmas -/

theorem set_getElem?_self {α : Type} {l : List α} {i : Nat} {a : α}
    (h : l[i]? = some a) : l.set i a = l := by
  induction l generalizing i with
  | nil => simp at h
  | cons x xs ih =>
      cases i with
      | zero =>
          simp only [List.getElem?_cons_zero, Option.some.injEq] at h
          rw [List.set_cons_zero, h]
      | succ n =>
          simp only [List.getElem?_cons_succ] at h
          rw [List.set_cons_succ, ih h]

theorem scoreAt_eq {g : cardsWar} {i : Nat} {p : Player}
    (h : g.players[i]? = some p) : scoreAt g i = p.score := by
  unfold scoreAt
  rw [h]

theorem scoreAt_none {g : cardsWar} {i : Nat}
    (h : g.players[i]? = none) : scoreAt g i = 0 := by
  unfold scoreAt
  rw [h]

/-- Unfolding of a successful `playCardAt`. -/
theorem playCardAt_spec {shuffle : List Card → List Card} {g g' : cardsWar}
    {i : Nat} {c : Card} (h : playCardAt shuffle g i = some (c, g')) :
    ∃ p p', g.players[i]? = some p ∧ p.playCard shuffle = some (c, p') ∧
      g' = { g with players := g.players.set i p' } := by
  unfold playCardAt at h
  split at h
  · cases h
  · rename_i p hp
    split at h
    · cases h
    · rename_i cp c' p' hpc
      injection h with h
      injection h with h1 h2
      subst h1
      exact ⟨p, p', hp, hpc, h2.symm⟩

/-- Source `playCardAt` succeeds on every in-range index (permuting shuffle). -/
theorem playCardAt_total {shuffle : List Card → List Card} {g : cardsWar}
    {i : Nat} (hs : validShuffle shuffle) (hi : i < g.players.length) :
    ∃ c g', playCardAt shuffle g i = some (c, g') := by
  have hp : g.players[i]? = some (g.players.get ⟨i, hi⟩) := by
    rw [List.get_eq_getElem]
    exact List.getElem?_eq_getElem hi
  obtain ⟨c, p', hpc⟩ := playCard_total (p := g.players.get ⟨i, hi⟩) (hs _)
  refine ⟨c, { g with players := g.players.set i p' }, ?_⟩
  unfold playCardAt
  rw [hp]
  simp only [hpc]

/-- Bookkeeping facts preserved and propagated by one `playCardAt`. -/
theorem playCardAt_props {shuffle : List Card → List Card} {g g' : cardsWar}
    {i : Nat} {c : Card} (hs : validShuffle shuffle)
    (h : playCardAt shuffle g i = some (c, g')) :
    g'.round = g.round ∧ g'.score = g.score ∧
    g'.latestResults = g.latestResults ∧
    g'.players.length = g.players.length ∧
    (∀ j, j ≠ i → g'.players[j]? = g.players[j]?) ∧
    (∀ j, scoreAt g' j ≤ scoreAt g j) ∧
    (c.number ≠ 0 → scoreAt g' i < scoreAt g i) ∧
    (noZero g → noZero g') := by
  obtain ⟨p, p', hp, hpc, hg'⟩ := playCardAt_spec h
  subst hg'
  have hset : ∀ j, j ≠ i →
      (g.players.set i p')[j]? = g.players[j]? := by
    intro j hj
    exact List.getElem?_set_ne (Ne.symm hj)
  have hilt : i < g.players.length := by
    rcases List.getElem?_eq_some_iff.mp hp with ⟨hlt, _⟩
    exact hlt
  have hgeti : (g.players.set i p')[i]? = some p' :=
    List.getElem?_set_self hilt
  refine ⟨rfl, rfl, rfl, List.length_set _ _ _, hset, ?_, ?_, ?_⟩
  · intro j
    by_cases hj : j = i
    · subst hj
      rw [scoreAt_eq (g := { g with players := g.players.set j p' }) hgeti,
        scoreAt_eq hp]
      exact playCard_score_le (hs _) hpc
    · unfold scoreAt
      rw [hset j hj]
  · intro hc
    rw [scoreAt_eq (g := { g with players := g.players.set i p' }) hgeti,
      scoreAt_eq hp]
    apply playCard_score_lt (hs _) _ hpc
    intro hz
    rw [playCard_zero hz] at hpc
    injection hpc with hpc
    injection hpc with h1 h2
    exact hc (h1 ▸ rfl)
  · intro hnz q hq x hx
    rcases List.mem_or_eq_of_mem_set hq with hq' | hq'
    · exact hnz q hq' x hx
    · subst hq'
      exact hnz p (List.getElem?_mem hp) x
        (playCard_cards_subset (hs _) hpc x hx)

/-- Destructor for a successful `get_played_cards` on a non-empty active
list. -/
theorem gpc_cons {shuffle : List Card → List Card} {g g' : cardsWar}
    {i : Nat} {rest : List Nat} {cs : List Card}
    (h : get_played_cards shuffle g (i :: rest) = some (cs, g')) :
    ∃ c g1 cs', playCardAt shuffle g i = some (c, g1) ∧
      get_played_cards shuffle g1 rest = some (cs', g') ∧ cs = c :: cs' := by
  unfold get_played_cards at h
  split at h
  · cases h
  · rename_i c g1 hpca
    split at h
    · cases h
    · rename_i cs' g'' hrest
      injection h with h
      injection h with h1 h2
      subst h2
      exact ⟨c, g1, cs', hpca, hrest, h1.symm⟩

/-- Constructor direction. -/
theorem gpc_cons_eq {shuffle : List Card → List Card} {g g1 g' : cardsWar}
    {i : Nat} {rest : List Nat} {c : Card} {cs : List Card}
    (hpca : playCardAt shuffle g i = some (c, g1))
    (hrest : get_played_cards shuffle g1 rest = some (cs, g')) :
    get_played_cards shuffle g (i :: rest) = some (c :: cs, g') := by
  unfold get_played_cards
  rw [hpca]
  simp only [hrest]

/-- Source `get_played_cards` succeeds whenever every active index is in range. -/
theorem gpc_total {shuffle : List Card → List Card}
    (hs : validShuffle shuffle) :
    ∀ (active : List Nat) (g : cardsWar),
      (∀ i ∈ active, i < g.players.length) →
      ∃ cs g', get_played_cards shuffle g active = some (cs, g') := by
  intro active
  induction active with
  | nil => exact fun g _ => ⟨[], g, rfl⟩
  | cons i rest ih =>
      intro g hv
      obtain ⟨c, g1, hpca⟩ :=
        playCardAt_total hs (hv i (List.mem_cons_self _ _))
      have hlen : g1.players.length = g.players.length :=
        (playCardAt_props hs hpca).2.2.2.1
      obtain ⟨cs, g', hrest⟩ := ih g1 (by
        intro j hj
        rw [hlen]
        exact hv j (List.mem_cons_of_mem _ hj))
      exact ⟨c :: cs, g', gpc_cons_eq hpca hrest⟩

/-- Bookkeeping facts across a whole `get_played_cards` sweep. -/
theorem gpc_props {shuffle : List Card → List Card}
    (hs : validShuffle shuffle) :
    ∀ (active : List Nat) (g g' : cardsWar) (cs : List Card),
      get_played_cards shuffle g active = some (cs, g') →
      g'.round = g.round ∧ g'.score = g.score ∧
      g'.latestResults = g.latestResults ∧
      g'.players.length = g.players.length ∧
      cs.length = active.length ∧
      (∀ j, j ∉ active → g'.players[j]? = g.players[j]?) ∧
      (∀ j, scoreAt g' j ≤ scoreAt g j) ∧
      (noZero g → noZero g') := by
  intro active
  induction active with
  | nil =>
      intro g g' cs h
      unfold get_played_cards at h
      injection h with h
      injection h with h1 h2
      subst h2
      subst h1
      exact ⟨rfl, rfl, rfl, rfl, rfl, fun _ _ => rfl, fun _ => Nat.le_refl _,
        fun h => h⟩
  | cons i rest ih =>
      intro g g' cs h
      obtain ⟨c, g1, cs', hpca, hrest, hcs⟩ := gpc_cons h
      subst hcs
      have hp1 := playCardAt_props hs hpca
      obtain ⟨hr2, hs2, hl2, hn2, hlen2, hf2, hle2, hz2⟩ := ih g1 g' cs' hrest
      refine ⟨hr2.trans hp1.1, hs2.trans hp1.2.1, hl2.trans hp1.2.2.1,
        hn2.trans hp1.2.2.2.1, by simp [hlen2], ?_, ?_, ?_⟩
      · intro j hj
        have hji : j ≠ i := fun hji => hj (hji ▸ List.mem_cons_self _ _)
        have hjr : j ∉ rest := fun hjr => hj (List.mem_cons_of_mem _ hjr)
        exact (hf2 j hjr).trans (hp1.2.2.2.2.1 j hji)
      · intro j
        exact Nat.le_trans (hle2 j) (hp1.2.2.2.2.2.1 j)
      · exact fun h0 => hz2 (hp1.2.2.2.2.2.2.2 h0)

/-- A player whose played card is non-sentinel strictly lost a card by the
end of the sweep (distinct active indices). -/
theorem gpc_pos_lt {shuffle : List Card → List Card}
    (hs : validShuffle shuffle) :
    ∀ (active : List Nat) (g g' : cardsWar) (cs : List Card),
      get_played_cards shuffle g active = some (cs, g') → active.Nodup →
      ∀ k (hk : k < active.length) (hc : k < cs.length),
        (cs.get ⟨k, hc⟩).number ≠ 0 →
        scoreAt g' (active.get ⟨k, hk⟩) < scoreAt g (active.get ⟨k, hk⟩) := by
  intro active
  induction active with
  | nil =>
      intro g g' cs h hnd k hk
      exact absurd hk (by simp)
  | cons i rest ih =>
      intro g g' cs h hnd k hk hc hnz
      obtain ⟨c, g1, cs', hpca, hrest, hcs⟩ := gpc_cons h
      subst hcs
      have hp1 := playCardAt_props hs hpca
      cases k with
      | zero =>
          simp only [List.get_eq_getElem, List.getElem_cons_zero] at hnz ⊢
          have h1 : scoreAt g1 i < scoreAt g i := hp1.2.2.2.2.2.2.1 hnz
          have h2 : scoreAt g' i ≤ scoreAt g1 i :=
            (gpc_props hs rest g1 g' cs' hrest).2.2.2.2.2.2.1 i
          omega
      | succ k =>
          simp only [List.get_eq_getElem, List.getElem_cons_succ] at hnz ⊢
          have hk' : k < rest.length := by
            simp only [List.length_cons] at hk
            omega
          have hc' : k < cs'.length := by
            simp only [List.length_cons] at hc
            omega
          have ha : rest[k] ∈ rest := List.getElem_mem hk'
          have hai : rest[k] ≠ i := by
            intro hcon
            exact (List.nodup_cons.mp hnd).1 (hcon ▸ ha)
          have heq1 : scoreAt g1 rest[k] = scoreAt g rest[k] := by
            unfold scoreAt
            rw [hp1.2.2.2.2.1 _ hai]
          have := ih g1 g' cs' hrest (List.nodup_cons.mp hnd).2 k hk' hc'
            (by simpa using hnz)
          simp only [List.get_eq_getElem] at this
          rw [← heq1]
          exact this

/-- With only real cards in play, a rank-0 played card means that player had
(and still has) zero cards. -/
theorem gpc_pos_zero {shuffle : List Card → List Card}
    (hs : validShuffle shuffle) :
    ∀ (active : List Nat) (g g' : cardsWar) (cs : List Card),
      get_played_cards shuffle g active = some (cs, g') → noZero g →
      ∀ k (hk : k < active.length) (hc : k < cs.length),
        (cs.get ⟨k, hc⟩).number = 0 →
        scoreAt g' (active.get ⟨k, hk⟩) = 0 := by
  intro active
  induction active with
  | nil =>
      intro g g' cs h hz k hk
      exact absurd hk (by simp)
  | cons i rest ih =>
      intro g g' cs h hz k hk hc hzc
      obtain ⟨c, g1, cs', hpca, hrest, hcs⟩ := gpc_cons h
      subst hcs
      have hp1 := playCardAt_props hs hpca
      cases k with
      | zero =>
          simp only [List.get_eq_getElem, List.getElem_cons_zero] at hzc ⊢
          obtain ⟨p, p', hp, hpc, hg1⟩ := playCardAt_spec hpca
          have hpz : ∀ x ∈ p.cards, x.number ≠ 0 :=
            hz p (List.getElem?_mem hp)
          obtain ⟨hps, hpe⟩ := playCard_zero_card (hs _) hpz hzc hpc
          subst hpe
          have hg1g : g1 = g := by
            rw [hg1, set_getElem?_self hp]
          subst hg1g
          have h2 : scoreAt g' i ≤ scoreAt g1 i :=
            (gpc_props hs rest g1 g' cs' hrest).2.2.2.2.2.2.1 i
          have h3 : scoreAt g1 i = 0 := by
            rw [scoreAt_eq hp]
            exact hps
          omega
      | succ k =>
          simp only [List.get_eq_getElem, List.getElem_cons_succ] at hzc ⊢
          have hk' : k < rest.length := by
            simp only [List.length_cons] at hk
            omega
          have hc' : k < cs'.length := by
            simp only [List.length_cons] at hc
            omega
          have := ih g1 g' cs' hrest (hp1.2.2.2.2.2.2.2 hz) k hk' hc'
            (by simpa using hzc)
          simpa using this

/-- A sweep over players who all have zero cards plays only sentinels and
leaves the state untouched. -/
theorem gpc_all_zero {shuffle : List Card → List Card} :
    ∀ (active : List Nat) (g : cardsWar),
      (∀ i ∈ active, i < g.players.length ∧ scoreAt g i = 0) →
      get_played_cards shuffle g active =
        some (List.replicate active.length Card.sentinel, g) := by
  intro active
  induction active with
  | nil => intro g _; rfl
  | cons i rest ih =>
      intro g hv
      obtain ⟨hi, hz⟩ := hv i (List.mem_cons_self _ _)
      have hp : g.players[i]? = some g.players[i] := List.getElem?_eq_getElem hi
      have hps : (g.players[i]).score = 0 := by
        rw [scoreAt_eq hp] at hz
        exact hz
      have hpca : playCardAt shuffle g i = some (Card.sentinel, g) := by
        unfold playCardAt
        rw [hp]
        simp only [playCard_zero hps]
        rw [set_getElem?_self hp]
      have hrest := ih g (fun j hj => hv j (List.mem_cons_of_mem _ hj))
      rw [List.length_cons, List.replicate_succ]
      exact gpc_cons_eq hpca hrest

/-! ### find_winning_players lemmas -/

/-- Members of the winner accumulator come from the accumulator or from a
pair whose card is non-sentinel (rank 0 is skipped before any branch can
add its index). -/
theorem findWinningAux_mem :
    ∀ (pairs : List (Nat × Card)) (winners : List Nat) (highest : Card) (i : Nat),
      i ∈ findWinningAux pairs winners highest →
      i ∈ winners ∨ ∃ c, (i, c) ∈ pairs ∧ c.number ≠ 0 := by
  intro pairs
  induction pairs with
  | nil =>
      intro winners highest i h
      exact Or.inl h
  | cons pr rest ih =>
      intro winners highest i h
      obtain ⟨j, c⟩ := pr
      unfold findWinningAux at h
      by_cases h0 : c.number = 0
      · rw [if_pos h0] at h
        rcases ih _ _ i h with hw | ⟨c', hc', hnz⟩
        · exact Or.inl hw
        · exact Or.inr ⟨c', List.mem_cons_of_mem _ hc', hnz⟩
      · rw [if_neg h0] at h
        by_cases hgt : c.gtCard highest
        · rw [if_pos hgt] at h
          rcases ih _ _ i h with hw | ⟨c', hc', hnz⟩
          · rcases List.mem_singleton.mp hw with rfl
            exact Or.inr ⟨c, List.mem_cons_self _ _, h0⟩
          · exact Or.inr ⟨c', List.mem_cons_of_mem _ hc', hnz⟩
        · rw [if_neg hgt] at h
          by_cases heq : c.eqCard highest
          · rw [if_pos heq] at h
            rcases ih _ _ i h with hw | ⟨c', hc', hnz⟩
            · rcases List.mem_append.mp hw with hw' | hw'
              · exact Or.inl hw'
              · rcases List.mem_singleton.mp hw' with rfl
                exact Or.inr ⟨c, List.mem_cons_self _ _, h0⟩
            · exact Or.inr ⟨c', List.mem_cons_of_mem _ hc', hnz⟩
          · rw [if_neg heq] at h
            rcases ih _ _ i h with hw | ⟨c', hc', hnz⟩
            · exact Or.inl hw
            · exact Or.inr ⟨c', List.mem_cons_of_mem _ hc', hnz⟩

/-- The winner list is a subsequence of accumulator-then-scanned-indices. -/
theorem findWinningAux_sublist :
    ∀ (pairs : List (Nat × Card)) (winners : List Nat) (highest : Card),
      (findWinningAux pairs winners highest).Sublist
        (winners ++ pairs.map Prod.fst) := by
  intro pairs
  induction pairs with
  | nil =>
      intro winners highest
      simp only [List.map_nil, List.append_nil]
      exact List.Sublist.refl _
  | cons pr rest ih =>
      intro winners highest
      obtain ⟨j, c⟩ := pr
      simp only [List.map_cons]
      unfold findWinningAux
      have hcons : (winners ++ rest.map Prod.fst).Sublist
          (winners ++ j :: rest.map Prod.fst) :=
        List.Sublist.append_left (List.sublist_cons_self _ _) winners
      by_cases h0 : c.number = 0
      · rw [if_pos h0]
        exact (ih winners highest).trans hcons
      · rw [if_neg h0]
        by_cases hgt : c.gtCard highest
        · rw [if_pos hgt]
          refine ((ih [j] c).trans ?_)
          simp only [List.map_cons, List.singleton_append]
          exact List.sublist_append_right winners (j :: rest.map Prod.fst)
        · rw [if_neg hgt]
          by_cases heq : c.eqCard highest
          · rw [if_pos heq]
            refine ((ih (winners ++ [j]) highest).trans ?_)
            simp only [List.map_cons, List.append_assoc, List.singleton_append]
            exact List.Sublist.refl _
          · rw [if_neg heq]
            exact (ih winners highest).trans hcons

/-- If every scanned card is rank 0 the accumulator is returned unchanged. -/
theorem findWinningAux_all_zero :
    ∀ (pairs : List (Nat × Card)) (winners : List Nat) (highest : Card),
      (∀ pr ∈ pairs, (Prod.snd pr).number = 0) →
      findWinningAux pairs winners highest = winners := by
  intro pairs
  induction pairs with
  | nil => intro winners highest _; rfl
  | cons pr rest ih =>
      intro winners highest hz
      obtain ⟨j, c⟩ := pr
      have h0 : c.number = 0 := hz (j, c) (List.mem_cons_self _ _)
      unfold findWinningAux
      rw [if_pos h0]
      exact ih winners highest (fun pr hpr => hz pr (List.mem_cons_of_mem _ hpr))

/-- Conversely, an empty result forces an empty accumulator and all-rank-0
cards (given the invariant that an empty accumulator comes with a rank-0
running highest card, as in the initial call). -/
theorem findWinningAux_eq_nil :
    ∀ (pairs : List (Nat × Card)) (winners : List Nat) (highest : Card),
      findWinningAux pairs winners highest = [] →
      (winners = [] → highest.number = 0) →
      (∀ pr ∈ pairs, (Prod.snd pr).number = 0) ∧ winners = [] := by
  intro pairs
  induction pairs with
  | nil =>
      intro winners highest h _
      exact ⟨fun pr hpr => absurd hpr (List.not_mem_nil pr), h⟩
  | cons pr rest ih =>
      intro winners highest h hinv
      obtain ⟨j, c⟩ := pr
      unfold findWinningAux at h
      by_cases h0 : c.number = 0
      · rw [if_pos h0] at h
        obtain ⟨hall, hw⟩ := ih winners highest h hinv
        refine ⟨?_, hw⟩
        intro pr hpr
        rcases List.mem_cons.mp hpr with hpr | hpr
        · rw [hpr]
          exact h0
        · exact hall pr hpr
      · rw [if_neg h0] at h
        by_cases hgt : c.gtCard highest
        · rw [if_pos hgt] at h
          obtain ⟨_, hw⟩ := ih [j] c h (fun hcon => absurd hcon (by simp))
          cases hw
        · rw [if_neg hgt] at h
          by_cases heq : c.eqCard highest
          · rw [if_pos heq] at h
            obtain ⟨_, hw⟩ := ih (winners ++ [j]) highest h
              (fun hcon => absurd hcon (by simp))
            exact absurd hw (by simp)
          · rw [if_neg heq] at h
            have hne : winners ≠ [] := by
              intro hcon
              have hh0 : highest.number = 0 := hinv hcon
              unfold Card.gtCard at hgt
              unfold Card.eqCard at heq
              simp only [hh0, decide_eq_true_eq] at hgt heq
              omega
            obtain ⟨_, hw⟩ := ih winners highest h
              (fun hcon => absurd hcon hne)
            exact absurd hw hne

/-- Winners played a non-sentinel card at their active slot. -/
theorem fw_mem {active : List Nat} {cards : List Card} {i : Nat}
    (h : i ∈ find_winning_players active cards) :
    ∃ c, (i, c) ∈ active.zip cards ∧ c.number ≠ 0 := by
  rcases findWinningAux_mem _ _ _ _ h with hw | hw
  · exact absurd hw (List.not_mem_nil i)
  · exact hw

/-- The winner list is a subsequence of the active list. -/
theorem fw_sublist {active : List Nat} {cards : List Card}
    (hlen : active.length ≤ cards.length) :
    (find_winning_players active cards).Sublist active := by
  have h := findWinningAux_sublist (active.zip cards) [] Card.sentinel
  rw [List.nil_append, List.map_fst_zip active cards hlen] at h
  exact h

/-- No winners iff every played card is the rank-0 sentinel value. -/
theorem fw_eq_nil_iff {active : List Nat} {cards : List Card} :
    find_winning_players active cards = [] ↔
      ∀ pr ∈ active.zip cards, (Prod.snd pr).number = 0 := by
  constructor
  · intro h
    exact (findWinningAux_eq_nil _ _ _ h (fun _ => rfl)).1
  · intro h
    exact findWinningAux_all_zero _ _ _ h

/-- Positional form: every winner owns a slot `k` where a non-sentinel card
was played. -/
theorem fw_mem_getElem {active : List Nat} {cards : List Card} {i : Nat}
    (hlen : active.length = cards.length)
    (h : i ∈ find_winning_players active cards) :
    ∃ k, ∃ (hk : k < active.length) (hc : k < cards.length),
      active[k] = i ∧ (cards[k]).number ≠ 0 := by
  obtain ⟨c, hmem, hnz⟩ := fw_mem h
  obtain ⟨k, hkz, hget⟩ := List.mem_iff_getElem.mp hmem
  have hkz' : k < active.length ∧ k < cards.length := by
    rw [List.length_zip] at hkz
    omega
  refine ⟨k, hkz'.1, hkz'.2, ?_, ?_⟩
  · have := @List.getElem_zip _ _ active cards k hkz
    rw [this] at hget
    exact (Prod.mk.injEq _ _ _ _).mp hget |>.1
  · have := @List.getElem_zip _ _ active cards k hkz
    rw [this] at hget
    have := (Prod.mk.injEq _ _ _ _).mp hget |>.2
    rw [this]
    exact hnz

/-! ### sum helper lemmas -/

theorem map_sum_lt_of_pointwise {l : List Nat} {f g : Nat → Nat}
    (h : ∀ i ∈ l, f i < g i) :
    (l.map f).sum + l.length ≤ (l.map g).sum := by
  induction l with
  | nil => simp
  | cons i rest ih =>
      simp only [List.map_cons, List.sum_cons, List.length_cons]
      have h1 : f i < g i := h i (List.mem_cons_self _ _)
      have h2 := ih (fun j hj => h j (List.mem_cons_of_mem _ hj))
      omega

theorem sublist_map_sum_le {l₁ l₂ : List Nat} (f : Nat → Nat)
    (h : l₁.Sublist l₂) : (l₁.map f).sum ≤ (l₂.map f).sum :=
  List.Sublist.sum_le_sum (h.map f) (fun _ _ => Nat.zero_le _)

/-! ### playRound unfolding lemmas -/

/-- Tie branch (`breakDraw`): the field grows by the played cards plus one
war draw per tied player and the round recurses on the tied players. -/
theorem playRound_succ_tie {shuffle : List Card → List Card} {fuel : Nat}
    {g g2 : cardsWar} {active : List Nat} {field : List Card} {cs : List Card}
    (hgpc : get_played_cards shuffle { g with round := g.round + 1 } active =
      some (cs, g2))
    (htie : 1 < (find_winning_players active cs).length) :
    playRound shuffle (fuel + 1) g active field =
      match get_played_cards shuffle g2 (find_winning_players active cs) with
      | none => RRes.popErr
      | some (warDraws, g3) =>
          playRound shuffle fuel g3 (find_winning_players active cs)
            (field ++ cs ++ warDraws) := by
  conv_lhs => rw [playRound]
  simp only [hgpc, if_pos htie]

/-- Unique-winner branch: award the cards and append a scoreboard row. -/
theorem playRound_succ_one {shuffle : List Card → List Card} {fuel : Nat}
    {g g2 : cardsWar} {active : List Nat} {field : List Card} {cs : List Card}
    {w : Nat}
    (hgpc : get_played_cards shuffle { g with round := g.round + 1 } active =
      some (cs, g2))
    (hw : find_winning_players active cs = [w]) :
    playRound shuffle (fuel + 1) g active field =
      RRes.ok (update_scoreboard (award_cards g2 w cs field)) := by
  conv_lhs => rw [playRound]
  have hlen : ¬ 1 < (find_winning_players active cs).length := by
    rw [hw]
    simp
  simp only [hgpc, if_neg hlen, hw]
  simp

/-- No-winner branch: `winingPlayers[0]` raises `IndexError`; the round
counter is already advanced and the sentinel plays already collected. -/
theorem playRound_succ_nil {shuffle : List Card → List Card} {fuel : Nat}
    {g g2 : cardsWar} {active : List Nat} {field : List Card} {cs : List Card}
    (hgpc : get_played_cards shuffle { g with round := g.round + 1 } active =
      some (cs, g2))
    (hw : find_winning_players active cs = []) :
    playRound shuffle (fuel + 1) g active field = RRes.idxErr g2 active := by
  conv_lhs => rw [playRound]
  have hlen : ¬ 1 < (find_winning_players active cs).length := by
    rw [hw]
    simp
  simp only [hgpc, if_neg hlen, hw]
  simp

/-! ### termination of the war recursion -/

/-- Main inductive argument: with fuel exceeding the cards held by the
active players, `playRound` finishes — either a unique winner resolves the
round (`ok`) or the winner set is empty and the `winingPlayers[0]` lookup
raises, which only happens when every player still tied is out of cards. -/
theorem playRound_resolves {shuffle : List Card → List Card}
    (hs : validShuffle shuffle) :
    ∀ (fuel : Nat) (g : cardsWar) (active : List Nat) (field : List Card),
      active.Nodup → (∀ i ∈ active, i < g.players.length) → noZero g →
      sumScores g active < fuel →
      (∃ g', playRound shuffle fuel g active field = RRes.ok g') ∨
      (∃ g' act, playRound shuffle fuel g active field = RRes.idxErr g' act ∧
        ∀ i ∈ act, scoreAt g' i = 0) := by
  intro fuel
  induction fuel with
  | zero =>
      intro g active field _ _ _ hfuel
      exact absurd hfuel (Nat.not_lt_zero _)
  | succ fuel ih =>
      intro g active field hnd hv hz hfuel
      set g1 : cardsWar := { g with round := g.round + 1 } with hg1
      have hv1 : ∀ i ∈ active, i < g1.players.length := hv
      have hz1 : noZero g1 := hz
      have hscore1 : ∀ i, scoreAt g1 i = scoreAt g i := fun _ => rfl
      obtain ⟨cs, g2, hgpc⟩ := gpc_total hs active g1 hv1
      obtain ⟨hr2, hs2, hl2, hn2, hlen2, hf2, hle2, hz2⟩ :=
        gpc_props hs active g1 g2 cs hgpc
      have hlencs : active.length = cs.length := hlen2.symm
      cases hwin : find_winning_players active cs with
      | nil =>
          refine Or.inr ⟨g2, active, playRound_succ_nil hgpc hwin, ?_⟩
          intro i hi
          obtain ⟨k, hk, hik⟩ := List.mem_iff_getElem.mp hi
          have hkc : k < cs.length := by omega
          have hkz : k < (active.zip cs).length := by
            rw [List.length_zip]
            omega
          have hzero : (cs[k]).number = 0 := by
            have hmem := List.getElem_mem hkz
            rw [List.getElem_zip] at hmem
            exact fw_eq_nil_iff.mp hwin _ hmem
          have := gpc_pos_zero hs active g1 g2 cs hgpc hz1 k hk hkc
            (by simpa using hzero)
          simp only [List.get_eq_getElem] at this
          rw [← hik]
          exact this
      | cons w ws =>
          cases hws : ws with
          | nil =>
              rw [hws] at hwin
              exact Or.inl ⟨_, playRound_succ_one hgpc hwin⟩
          | cons w2 wt =>
              rw [hws] at hwin
              have htie : 1 < (find_winning_players active cs).length := by
                rw [hwin]
                simp
              have hsub : (find_winning_players active cs).Sublist active :=
                fw_sublist (by omega)
              have hvw : ∀ i ∈ find_winning_players active cs,
                  i < g2.players.length := by
                intro i hiw
                rw [hn2]
                exact hv1 i (hsub.subset hiw)
              obtain ⟨wsD, g3, hgpc2⟩ :=
                gpc_total hs (find_winning_players active cs) g2 hvw
              obtain ⟨hr3, hs3, hl3, hn3, hlen3, hf3, hle3, hz3⟩ :=
                gpc_props hs (find_winning_players active cs) g2 g3 wsD hgpc2
              have heq := @playRound_succ_tie shuffle fuel g g2 active field
                cs hgpc htie
              rw [hgpc2] at heq
              -- fuel bound for the recursive call
              have hdec : ∀ i ∈ find_winning_players active cs,
                  scoreAt g2 i < scoreAt g1 i := by
                intro i hiw
                obtain ⟨k, hk, hkc, hak, hnz⟩ := fw_mem_getElem hlencs hiw
                have := gpc_pos_lt hs active g1 g2 cs hgpc hnd k hk hkc
                  (by simpa using hnz)
                simp only [List.get_eq_getElem] at this
                rw [← hak]
                exact this
              have hsum2 : ((find_winning_players active cs).map
                    (scoreAt g2)).sum +
                  (find_winning_players active cs).length ≤
                  ((find_winning_players active cs).map (scoreAt g1)).sum :=
                map_sum_lt_of_pointwise hdec
              have hsum3 : ((find_winning_players active cs).map
                  (scoreAt g3)).sum ≤
                  ((find_winning_players active cs).map (scoreAt g2)).sum :=
                List.sum_le_sum (fun i _ => hle3 i)
              have hsumact : ((find_winning_players active cs).map
                  (scoreAt g1)).sum ≤ (active.map (scoreAt g1)).sum :=
                sublist_map_sum_le _ hsub
              have hsg1 : (active.map (scoreAt g1)).sum = sumScores g active := by
                unfold sumScores
                rfl
              have hwlen : 2 ≤ (find_winning_players active cs).length := by
                rw [hwin]
                simp only [List.length_cons]
                omega
              have hfuel' : sumScores g3 (find_winning_players active cs) < fuel := by
                unfold sumScores
                omega
              have hih := ih g3 (find_winning_players active cs)
                (field ++ cs ++ wsD) (hsub.nodup hnd)
                (by
                  intro i hiw
                  rw [hn3]
                  exact hvw i hiw)
                (hz3 (hz2 hz1)) hfuel'
              rcases hih with ⟨g', hok⟩ | ⟨g', act, herr, hallz⟩
              · exact Or.inl ⟨g', heq.trans hok⟩
              · exact Or.inr ⟨g', act, heq.trans herr, hallz⟩

/-! ### constructor and dealing lemmas -/

/-- Unfolding a successful construction. -/
theorem mkCardsWar_some {n : Nat} {g : cardsWar} (h : mkCardsWar n = some g) :
    2 ≤ n ∧ 56 % n = 0 ∧ g.players.length = n ∧ g.round = 0 ∧ g.score = [] ∧
    g.latestResults = none ∧ ∀ p ∈ g.players, p.hand = [] ∧ p.won_cards = [] := by
  unfold mkCardsWar at h
  split at h
  · rename_i hcond
    injection h with h
    subst h
    refine ⟨hcond.1, hcond.2, by simp, rfl, rfl, rfl, ?_⟩
    intro p hp
    simp only [List.mem_map] at hp
    obtain ⟨i, _, hip⟩ := hp
    rw [← hip]
    exact ⟨rfl, rfl⟩
  · cases h

theorem mkCardsWar_isSome_iff {n : Nat} :
    (mkCardsWar n).isSome ↔ (2 ≤ n ∧ 56 % n = 0) := by
  unfold mkCardsWar
  split
  · rename_i hcond
    simp [hcond]
  · rename_i hcond
    simp [hcond]

theorem baseDeck_length : baseDeck.length = 52 := by decide

theorem distributeAux_length (deck : List Card) (cpp : Nat) :
    ∀ (ps : List Player) (start : Nat),
      (distributeAux deck cpp start ps).length = ps.length := by
  intro ps
  induction ps with
  | nil => intro start; rfl
  | cons p rest ih =>
      intro start
      unfold distributeAux
      simp only [List.length_cons, ih]

/-- Each dealt hand in terms of the original player list. -/
theorem distributeAux_get? (deck : List Card) (cpp : Nat) :
    ∀ (ps : List Player) (start k : Nat) (p : Player), ps[k]? = some p →
      (distributeAux deck cpp start ps)[k]? =
        some ⟨p.name,
          dequeMax 56 (p.hand ++ ((deck.drop ((start + k) * cpp)).take cpp)),
          p.won_cards⟩ := by
  intro ps
  induction ps with
  | nil =>
      intro start k p h
      simp at h
  | cons q rest ih =>
      intro start k p h
      cases k with
      | zero =>
          simp only [List.getElem?_cons_zero, Option.some.injEq] at h
          subst h
          unfold distributeAux
          simp
      | succ k =>
          simp only [List.getElem?_cons_succ] at h
          unfold distributeAux
          simp only [List.getElem?_cons_succ]
          have := ih (start + 1) k p h
          have harith : start + 1 + k = start + (k + 1) := by omega
          rw [harith] at this
          exact this

/-- Every freshly dealt player ends with exactly `cpp` cards when the deck
is long enough. -/
theorem distributeAux_score (deck : List Card) (cpp : Nat) (hcpp : cpp ≤ 56) :
    ∀ (ps : List Player) (start : Nat),
      (∀ p ∈ ps, p.hand = [] ∧ p.won_cards = []) →
      (start + ps.length) * cpp ≤ deck.length →
      (distributeAux deck cpp start ps).map Player.score =
        List.replicate ps.length cpp := by
  intro ps
  induction ps with
  | nil => intro start _ _; rfl
  | cons q rest ih =>
      intro start hemp hbound
      obtain ⟨hq1, hq2⟩ := hemp q (List.mem_cons_self _ _)
      unfold distributeAux
      simp only [List.map_cons, List.length_cons, List.replicate_succ,
        List.cons.injEq]
      simp only [List.length_cons] at hbound
      have hsplit : (start + (rest.length + 1)) * cpp =
          start * cpp + rest.length * cpp + cpp := by ring
      rw [hsplit] at hbound
      constructor
      · have hchunklen : ((deck.drop (start * cpp)).take cpp).length = cpp := by
          rw [List.length_take, List.length_drop]
          omega
        unfold Player.score
        rw [hq1, hq2]
        simp only [List.nil_append]
        rw [dequeMax_of_le (by rw [hchunklen]; exact hcpp)]
        simp [hchunklen]
      · apply ih (start + 1)
          (fun p hp => hemp p (List.mem_cons_of_mem _ hp))
        have : (start + 1 + rest.length) * cpp =
            start * cpp + rest.length * cpp + cpp := by ring
        rw [this]
        exact hbound

/-! ### award and scoreboard lemmas -/

/-- Unfolding of `award_cards` at a valid winner index. -/
theorem award_cards_spec {g : cardsWar} {w : Nat} {p : Player}
    (played field : List Card) (hp : g.players[w]? = some p) :
    (award_cards g w played field).players[w]? =
      some { p with won_cards := p.won_cards ++
        played.filter (fun c => decide (c.number ≠ 0)) ++
        field.filter (fun c => decide (c.number ≠ 0)) } ∧
    (∀ j, j ≠ w → (award_cards g w played field).players[j]? = g.players[j]?) ∧
    (award_cards g w played field).round = g.round ∧
    (award_cards g w played field).score = g.score := by
  have hlt : w < g.players.length := (List.getElem?_eq_some_iff.mp hp).1
  unfold award_cards
  rw [hp]
  refine ⟨List.getElem?_set_self hlt, ?_, rfl, rfl⟩
  intro j hj
  exact List.getElem?_set_ne (Ne.symm hj)

theorem mkRow_total (g : cardsWar) :
    (mkRow g).total = (mkRow g).playerScores.sum := rfl

theorem update_scoreboard_spec (g : cardsWar) :
    (update_scoreboard g).score = g.score ++ [mkRow g] ∧
    (update_scoreboard g).players = g.players ∧
    (update_scoreboard g).round = g.round := ⟨rfl, rfl, rfl⟩

/-- Source `get_played_cards` never touches the scoreboard, the round counter or
the number of players (no shuffle assumption needed). -/
theorem gpc_frame :
    ∀ (active : List Nat) {shuffle : List Card → List Card}
      (g g' : cardsWar) (cs : List Card),
      get_played_cards shuffle g active = some (cs, g') →
      g'.score = g.score ∧ g'.round = g.round ∧
      g'.latestResults = g.latestResults ∧
      g'.players.length = g.players.length := by
  intro active
  induction active with
  | nil =>
      intro shuffle g g' cs h
      unfold get_played_cards at h
      injection h with h
      injection h with h1 h2
      subst h2
      exact ⟨rfl, rfl, rfl, rfl⟩
  | cons i rest ih =>
      intro shuffle g g' cs h
      obtain ⟨c, g1, cs', hpca, hrest, hcs⟩ := gpc_cons h
      obtain ⟨p, p', hp, hpc, hg1⟩ := playCardAt_spec hpca
      obtain ⟨ha, hb, hc2, hd⟩ := ih g1 g' cs' hrest
      subst hg1
      exact ⟨ha, hb, hc2, hd.trans (List.length_set _ _ _)⟩

/-- A resolved (`ok`) round appends exactly one row, whose `Total` equals
the sum of its per-player columns; prior rows are untouched. -/
theorem playRound_score_append {shuffle : List Card → List Card} :
    ∀ (fuel : Nat) (g : cardsWar) (active : List Nat) (field : List Card)
      (g' : cardsWar),
      playRound shuffle fuel g active field = RRes.ok g' →
      ∃ r, g'.score = g.score ++ [r] ∧ r.total = r.playerScores.sum := by
  intro fuel
  induction fuel with
  | zero =>
      intro g active field g' h
      cases h
  | succ fuel ih =>
      intro g active field g' h
      rw [playRound] at h
      split at h
      · cases h
      · rename_i cs g2 hgpc
        dsimp only [] at h
        split at h
        · split at h
          · cases h
          · rename_i warDraws g3 hgpc2
            obtain ⟨r, hr, ht⟩ := ih g3 _ _ g' h
            have hsc3 : g3.score = g2.score := (gpc_frame _ _ _ _ hgpc2).1
            have hsc2 : g2.score = g.score := (gpc_frame _ _ _ _ hgpc).1
            exact ⟨r, by rw [hr, hsc3, hsc2], ht⟩
        · split at h
          · cases h
          · rename_i w wt hwin
            injection h with h
            subst h
            refine ⟨mkRow (award_cards g2 w cs field), ?_, rfl⟩
            have hsc2 : g2.score = g.score := (gpc_frame _ _ _ _ hgpc).1
            have haw : (award_cards g2 w cs field).score = g2.score := by
              unfold award_cards
              split
              · rfl
              · rfl
            rw [(update_scoreboard_spec _).1, haw, hsc2]

/-- One card is collected per active player (no shuffle assumption). -/
theorem gpc_length {shuffle : List Card → List Card} :
    ∀ (active : List Nat) (g g' : cardsWar) (cs : List Card),
      get_played_cards shuffle g active = some (cs, g') →
      cs.length = active.length := by
  intro active
  induction active with
  | nil =>
      intro g g' cs h
      unfold get_played_cards at h
      injection h with h
      injection h with h1 h2
      rw [← h1]
      rfl
  | cons i rest ih =>
      intro g g' cs h
      obtain ⟨c, g1, cs', hpca, hrest, hcs⟩ := gpc_cons h
      subst hcs
      simp only [List.length_cons, ih g1 g' cs' hrest]

/-- The while-loop only appends scoreboard rows, all of them consistent. -/
theorem playGameLoop_score {shuffle : List Card → List Card} :
    ∀ (fuel : Nat) (g g' : cardsWar),
      playGameLoop shuffle fuel g = GRes.ok g' →
      ∃ rows, g'.score = g.score ++ rows ∧
        ∀ r ∈ rows, r.total = r.playerScores.sum := by
  intro fuel
  induction fuel with
  | zero =>
      intro g g' h
      cases h
  | succ fuel ih =>
      intro g g' h
      rw [playGameLoop] at h
      split at h
      · injection h with h
        subst h
        exact ⟨[], by simp, by simp⟩
      · split at h
        · rename_i g2 hpr
          obtain ⟨rows, hrows, hall⟩ := ih g2 g' h
          obtain ⟨r, hr, ht⟩ := playRound_score_append _ _ _ _ _ hpr
          refine ⟨r :: rows, ?_, ?_⟩
          · rw [hrows, hr]
            simp
          · intro r' hr'
            rcases List.mem_cons.mp hr' with hr' | hr'
            · rw [hr']
              exact ht
            · exact hall r' hr'
        · cases h
        · cases h

/-- Source `isWinner` is exactly the ≥ 52 test. -/
theorem isWinner_iff (g : cardsWar) :
    isWinner g = true ↔ ∃ p ∈ g.players, 52 ≤ p.score := by
  unfold isWinner
  simp [List.any_eq_true]

/-! ### concrete states for the testable scenarios -/

/-- Ranks that player 1 receives in the deterministic C9 scenario. -/
def isHigh (c : Card) : Bool :=
  8 ≤ c.number || (c.number == 7 && (c.color == "BC" || c.color == "BS"))

/-- The seeded deck order: player 1's 26 cards (two 7s then all of 8..13)
followed by player 2's 26 cards (all of 1..6 then two 7s); positionally
player 1's k-th card always outranks player 2's k-th card. -/
def targetDeck : List Card :=
  baseDeck.filter isHigh ++ baseDeck.filter (fun c => !(isHigh c))

/-- The seeded shuffle of the C9 scenario (only ever applied to the fresh
52-card deck; no refill happens in that run). -/
def scenarioShuffle : List Card → List Card := fun _ => targetDeck

theorem targetDeck_perm : targetDeck.Perm baseDeck :=
  List.filter_append_perm _ _

theorem validShuffle_id : validShuffle id := fun l => List.Perm.refl l

/-! ## Claim theorems -/

/-- The fresh two-player game, in literal form. -/
def freshTwoPlayerGame : cardsWar :=
  ⟨[Player.mk0 "Player 1", Player.mk0 "Player 2"], 0, [], none⟩

/-- C1 (counterexample): player count 7 is accepted at construction
(56 % 7 = 0) but `distributeCards` deals only `52 // 7 = 7` cards to each of
the 7 players, so the sum of all scores is 49, not 52 — three deck cards are
dropped. -/
theorem C1_deal_cex :
    (mkCardsWar 7).isSome = true ∧
    ((mkCardsWar 7).map
      (fun g => ((distributeCards id g).players.map Player.score).sum)) =
      some 49 ∧
    ¬ (49 = 52) := by
  refine ⟨by decide, by decide, by decide⟩

/-- C1 (amended): for every accepted player count `n`, `distributeCards`
extends each player's draw_queue with the contiguous chunk
`deck[i*(52/n) : (i+1)*(52/n)]`, so every player holds `52 / n` cards and
the scores sum to `n * (52 / n)`; this equals 52 — all deck cards held,
none dropped — exactly when `n` divides 52 (so among the accepted counts
only 2 and 4). -/
theorem C1_deal :
    ∀ (n : Nat) (shuffle : List Card → List Card) (g : cardsWar),
      validShuffle shuffle → mkCardsWar n = some g →
      ((distributeCards shuffle g).players.length = n) ∧
      ((distributeCards shuffle g).players.map Player.score =
        List.replicate n (52 / n)) ∧
      (((distributeCards shuffle g).players.map Player.score).sum =
        n * (52 / n)) ∧
      ((((distributeCards shuffle g).players.map Player.score).sum = 52) ↔
        n ∣ 52) ∧
      (∀ k, k < n → ((distributeCards shuffle g).players[k]?).map Player.hand =
        some (((shuffle baseDeck).drop (k * (52 / n))).take (52 / n))) := by
  intro n shuffle g hsv hmk
  obtain ⟨hn2, h56, hplen, _, _, _, hemp⟩ := mkCardsWar_some hmk
  have hdl : (shuffle baseDeck).length = 52 := by
    rw [(hsv baseDeck).length_eq, baseDeck_length]
  have hplayers : (distributeCards shuffle g).players =
      distributeAux (shuffle baseDeck)
        ((shuffle baseDeck).length / g.players.length) 0 g.players := rfl
  rw [hdl, hplen] at hplayers
  have hcpp56 : 52 / n ≤ 56 := Nat.le_trans (Nat.div_le_self _ _) (by omega)
  have hbound : (0 + g.players.length) * (52 / n) ≤ (shuffle baseDeck).length := by
    rw [hdl, hplen, Nat.zero_add]
    calc n * (52 / n) = 52 / n * n := Nat.mul_comm _ _
      _ ≤ 52 := Nat.div_mul_le_self _ _
  have hscores : (distributeCards shuffle g).players.map Player.score =
      List.replicate n (52 / n) := by
    rw [hplayers, distributeAux_score _ _ hcpp56 g.players 0 hemp hbound, hplen]
  have hsum : ((distributeCards shuffle g).players.map Player.score).sum =
      n * (52 / n) := by
    rw [hscores, List.sum_replicate, smul_eq_mul]
  refine ⟨?_, hscores, hsum, ?_, ?_⟩
  · rw [hplayers, distributeAux_length, hplen]
  · rw [hsum]
    constructor
    · intro h
      exact ⟨52 / n, h.symm⟩
    · intro h
      exact Nat.mul_div_cancel' h
  · intro k hk
    have hklen : k < g.players.length := by rw [hplen]; exact hk
    have hgk : g.players[k]? = some g.players[k] := List.getElem?_eq_getElem hklen
    obtain ⟨hh, hw⟩ := hemp _ (List.getElem_mem hklen)
    have := distributeAux_get? (shuffle baseDeck) (52 / n) g.players 0 k
      g.players[k] hgk
    rw [hplayers, this, hh]
    simp only [Option.map_some', Option.some.injEq, List.nil_append,
      Nat.zero_add]
    apply dequeMax_of_le
    exact Nat.le_trans (List.length_take_le _ _) hcpp56

/-- C1 (witness): the amended statement applied to the real two-player
construction with the identity shuffle. -/
theorem C1_deal_witness :
    validShuffle id ∧ mkCardsWar 2 = some freshTwoPlayerGame ∧
    (((distributeCards id freshTwoPlayerGame).players.length = 2) ∧
      ((distributeCards id freshTwoPlayerGame).players.map Player.score =
        List.replicate 2 (52 / 2)) ∧
      (((distributeCards id freshTwoPlayerGame).players.map Player.score).sum =
        2 * (52 / 2)) ∧
      ((((distributeCards id freshTwoPlayerGame).players.map
          Player.score).sum = 52) ↔ 2 ∣ 52) ∧
      (∀ k, k < 2 →
        ((distributeCards id freshTwoPlayerGame).players[k]?).map Player.hand =
        some (((id baseDeck).drop (k * (52 / 2))).take (52 / 2)))) :=
  ⟨validShuffle_id, by decide,
    C1_deal 2 id freshTwoPlayerGame validShuffle_id (by decide)⟩

/-- C2 (counterexample): `refill_hand` REPLACES the draw queue instead of
extending it, so calling it on a player whose draw_queue is non-empty (the
claim allows "any draw_queue contents") destroys those cards: a player
holding one card ends up holding none — the multiset is not preserved.
(The identity shuffle is a legitimate permutation of the empty won pile.) -/
theorem C2_refill_cex :
    ((Player.mk "A" [⟨1, "BC"⟩] []).refill_hand id).won_cards = [] ∧
    ((Player.mk "A" [⟨1, "BC"⟩] []).refill_hand id).hand.length =
      (Player.mk "A" [⟨1, "BC"⟩] []).won_cards.length ∧
    ¬ ((((Player.mk "A" [⟨1, "BC"⟩] []).refill_hand id).hand ++
        ((Player.mk "A" [⟨1, "BC"⟩] []).refill_hand id).won_cards).Perm
       ((Player.mk "A" [⟨1, "BC"⟩] []).hand ++
        (Player.mk "A" [⟨1, "BC"⟩] []).won_cards)) :=
  ⟨by decide, by decide, by decide⟩

/-- C2 (amended): when the draw_queue is empty at call time and the won
pile holds at most 56 cards — both true at the only call site, inside
`playCard` on an empty hand for a ≤ 52-card game — `refill_hand` empties
the won pile, gives the draw_queue exactly the old won pile's size, and
preserves the multiset of held cards.  In general the draw_queue is
overwritten by the shuffled won pile and its previous contents are lost. -/
theorem C2_refill :
    ∀ (shuffle : List Card → List Card) (p : Player),
      (shuffle p.won_cards).Perm p.won_cards →
      p.hand = [] → p.won_cards.length ≤ 56 →
      (p.refill_hand shuffle).won_cards = [] ∧
      (p.refill_hand shuffle).hand.length = p.won_cards.length ∧
      (((p.refill_hand shuffle).hand ++
        (p.refill_hand shuffle).won_cards).Perm (p.hand ++ p.won_cards)) := by
  intro shuffle p hperm hh h56
  have hlen : (shuffle p.won_cards).length ≤ 56 := by
    rw [hperm.length_eq]
    exact h56
  have hdq : dequeMax 56 (shuffle p.won_cards) = shuffle p.won_cards :=
    dequeMax_of_le hlen
  unfold Player.refill_hand
  refine ⟨rfl, ?_, ?_⟩
  · simp only [hdq]
    exact hperm.length_eq
  · simp only [hdq, hh, List.append_nil, List.nil_append]
    exact hperm

/-- C2 (witness): the amended statement on a player refilling two won
cards through the identity shuffle. -/
theorem C2_refill_witness :
    ((id [Card.mk 3 "RD", Card.mk 4 "RH"]).Perm [Card.mk 3 "RD", Card.mk 4 "RH"]) ∧
    ((Player.mk "B" [] [Card.mk 3 "RD", Card.mk 4 "RH"]).refill_hand id).won_cards = [] ∧
    ((Player.mk "B" [] [Card.mk 3 "RD", Card.mk 4 "RH"]).refill_hand id).hand.length =
      (Player.mk "B" [] [Card.mk 3 "RD", Card.mk 4 "RH"]).won_cards.length ∧
    ((((Player.mk "B" [] [Card.mk 3 "RD", Card.mk 4 "RH"]).refill_hand id).hand ++
      ((Player.mk "B" [] [Card.mk 3 "RD", Card.mk 4 "RH"]).refill_hand id).won_cards).Perm
     ((Player.mk "B" [] [Card.mk 3 "RD", Card.mk 4 "RH"]).hand ++
      (Player.mk "B" [] [Card.mk 3 "RD", Card.mk 4 "RH"]).won_cards)) := by
  have h := C2_refill id (Player.mk "B" [] [Card.mk 3 "RD", Card.mk 4 "RH"])
    (List.Perm.refl _) rfl (by decide)
  exact ⟨List.Perm.refl _, h.1, h.2.1, h.2.2⟩

theorem award_cards_score (g : cardsWar) (w : Nat) (a b : List Card) :
    (award_cards g w a b).score = g.score := by
  unfold award_cards
  split <;> rfl

/-- Two players about to tie on 7, each holding two more cards. -/
def warGame : cardsWar :=
  ⟨[⟨"P1", [⟨7, "BC"⟩, ⟨2, "BC"⟩, ⟨9, "BC"⟩], []⟩,
    ⟨"P2", [⟨7, "BS"⟩, ⟨3, "BS"⟩, ⟨5, "BS"⟩], []⟩], 0, [], none⟩

/-- Source `warGame` after both 7s are played. -/
def warGameMid : cardsWar :=
  ⟨[⟨"P1", [⟨2, "BC"⟩, ⟨9, "BC"⟩], []⟩,
    ⟨"P2", [⟨3, "BS"⟩, ⟨5, "BS"⟩], []⟩], 1, [], none⟩

/-- Source `warGameMid` after the one-card war draws. -/
def warGameDrawn : cardsWar :=
  ⟨[⟨"P1", [⟨9, "BC"⟩], []⟩, ⟨"P2", [⟨5, "BS"⟩], []⟩], 1, [], none⟩

/-- The resolved `warGame`: player 1 captured all six cards in one
scoreboard row. -/
def warGameDone : cardsWar :=
  ⟨[⟨"P1", [], [⟨9, "BC"⟩, ⟨5, "BS"⟩, ⟨7, "BC"⟩, ⟨7, "BS"⟩, ⟨2, "BC"⟩, ⟨3, "BS"⟩]⟩,
    ⟨"P2", [], []⟩], 2, [⟨2, [6, 0], 6⟩], some ⟨2, [6, 0], 6⟩⟩

/-- C3 (amended): a tie extends the field by all played cards plus exactly
one extra draw per tied player and recurses on the tied set without
touching the scoreboard; when a unique winner resolves, it receives the
round's non-sentinel played cards plus the NON-SENTINEL cards of the
accumulated field (rank-0 sentinel entries that entered the field with the
played cards are discarded, not awarded), and exactly one row is appended.
In the two-player tie scenario the field holds 2 + 2 = 4 cards before
resolution and the winner's pile grows by those 4 plus the 2 resolving
plays. -/
theorem C3_war :
    (∀ (shuffle : List Card → List Card) (fuel : Nat) (g g2 : cardsWar)
      (active : List Nat) (field cs : List Card),
      get_played_cards shuffle { g with round := g.round + 1 } active =
        some (cs, g2) →
      1 < (find_winning_players active cs).length →
      (playRound shuffle (fuel + 1) g active field =
        match get_played_cards shuffle g2 (find_winning_players active cs) with
        | none => RRes.popErr
        | some (warDraws, g3) =>
            playRound shuffle fuel g3 (find_winning_players active cs)
              (field ++ cs ++ warDraws)) ∧
      (∀ warDraws g3,
        get_played_cards shuffle g2 (find_winning_players active cs) =
          some (warDraws, g3) →
        warDraws.length = (find_winning_players active cs).length ∧
        g3.score = g.score ∧ g3.latestResults = g.latestResults)) ∧
    (∀ (shuffle : List Card → List Card) (fuel : Nat) (g g2 : cardsWar)
      (active : List Nat) (field cs : List Card) (w : Nat) (p : Player),
      get_played_cards shuffle { g with round := g.round + 1 } active =
        some (cs, g2) →
      find_winning_players active cs = [w] →
      g2.players[w]? = some p →
      playRound shuffle (fuel + 1) g active field =
        RRes.ok (update_scoreboard (award_cards g2 w cs field)) ∧
      (award_cards g2 w cs field).players[w]? =
        some ⟨p.name, p.hand, p.won_cards ++
          cs.filter (fun c => decide (c.number ≠ 0)) ++
          field.filter (fun c => decide (c.number ≠ 0))⟩ ∧
      (∀ j, j ≠ w →
        (award_cards g2 w cs field).players[j]? = g2.players[j]?) ∧
      (update_scoreboard (award_cards g2 w cs field)).score =
        g.score ++ [mkRow (award_cards g2 w cs field)]) ∧
    (get_played_cards id { warGame with round := 1 } [0, 1] =
        some ([(Card.mk 7 "BC"), (Card.mk 7 "BS")], warGameMid) ∧
      find_winning_players [0, 1] [(Card.mk 7 "BC"), (Card.mk 7 "BS")] = [0, 1] ∧
      get_played_cards id warGameMid [0, 1] =
        some ([(Card.mk 2 "BC"), (Card.mk 3 "BS")], warGameDrawn) ∧
      (([] : List Card) ++ [(Card.mk 7 "BC"), (Card.mk 7 "BS")] ++
        [(Card.mk 2 "BC"), (Card.mk 3 "BS")]).length = 2 + 2 ∧
      playRound id 3 warGame [0, 1] [] = RRes.ok warGameDone ∧
      (warGameDone.players[0]?).map (fun q => q.won_cards.length) =
        some (4 + 2) ∧
      warGameDone.score.length = 1) := by
  refine ⟨?_, ?_, ?_⟩
  · intro shuffle fuel g g2 active field cs hgpc htie
    refine ⟨playRound_succ_tie hgpc htie, ?_⟩
    intro warDraws g3 hgpc2
    have hfr2 := gpc_frame _ _ _ _ hgpc
    have hfr3 := gpc_frame _ _ _ _ hgpc2
    exact ⟨gpc_length _ _ _ _ hgpc2, hfr3.1.trans hfr2.1,
      hfr3.2.2.1.trans hfr2.2.2.1⟩
  · intro shuffle fuel g g2 active field cs w p hgpc hw hp
    obtain ⟨ha, hb, _, _⟩ := award_cards_spec cs field hp
    refine ⟨playRound_succ_one hgpc hw, ha, hb, ?_⟩
    rw [(update_scoreboard_spec _).1, award_cards_score,
      (gpc_frame _ _ _ _ hgpc).1]
  · exact ⟨by decide, by decide, by decide, by decide, by decide, by decide,
      by decide⟩

/-- C3 (counterexample): with three active players one of whom is out of
cards, the tie round pushes THREE entries onto the field (the two 7s and a
rank-0 sentinel) plus two war draws — five entries — but on resolution the
winner's pile grows only by 6 = 2 (resolving plays) + 4 (non-sentinel field
cards), not by 2 + 5: the sentinel field entry is filtered out, so "the
entire accumulated field" is not awarded. -/
theorem C3_war_cex :
    get_played_cards id
        { players := [⟨"P1", [(Card.mk 7 "BC"), (Card.mk 9 "BC"), (Card.mk 13 "BC")], []⟩,
            ⟨"P2", [(Card.mk 7 "BS"), (Card.mk 5 "BS"), (Card.mk 12 "BS")], []⟩, ⟨"P3", [], []⟩],
          round := 1, score := [], latestResults := none } [0, 1, 2] =
      some ([(Card.mk 7 "BC"), (Card.mk 7 "BS"), Card.sentinel],
        { players := [⟨"P1", [(Card.mk 9 "BC"), (Card.mk 13 "BC")], []⟩,
            ⟨"P2", [(Card.mk 5 "BS"), (Card.mk 12 "BS")], []⟩, ⟨"P3", [], []⟩],
          round := 1, score := [], latestResults := none }) ∧
    find_winning_players [0, 1, 2] [(Card.mk 7 "BC"), (Card.mk 7 "BS"), Card.sentinel] =
      [0, 1] ∧
    get_played_cards id
        { players := [⟨"P1", [(Card.mk 9 "BC"), (Card.mk 13 "BC")], []⟩,
            ⟨"P2", [(Card.mk 5 "BS"), (Card.mk 12 "BS")], []⟩, ⟨"P3", [], []⟩],
          round := 1, score := [], latestResults := none } [0, 1] =
      some ([(Card.mk 9 "BC"), (Card.mk 5 "BS")],
        { players := [⟨"P1", [(Card.mk 13 "BC")], []⟩, ⟨"P2", [(Card.mk 12 "BS")], []⟩,
            ⟨"P3", [], []⟩],
          round := 1, score := [], latestResults := none }) ∧
    (([] : List Card) ++ [(Card.mk 7 "BC"), (Card.mk 7 "BS"), Card.sentinel] ++
      [(Card.mk 9 "BC"), (Card.mk 5 "BS")]).length = 5 ∧
    playRound id 3
        { players := [⟨"P1", [(Card.mk 7 "BC"), (Card.mk 9 "BC"), (Card.mk 13 "BC")], []⟩,
            ⟨"P2", [(Card.mk 7 "BS"), (Card.mk 5 "BS"), (Card.mk 12 "BS")], []⟩,
            ⟨"P3", [], []⟩],
          round := 0, score := [], latestResults := none } [0, 1, 2] [] =
      RRes.ok
        { players := [⟨"P1", [], [(Card.mk 13 "BC"), (Card.mk 12 "BS"),
              (Card.mk 7 "BC"), (Card.mk 7 "BS"), (Card.mk 9 "BC"), (Card.mk 5 "BS")]⟩,
            ⟨"P2", [], []⟩, ⟨"P3", [], []⟩],
          round := 2, score := [⟨2, [6, 0, 0], 6⟩],
          latestResults := some ⟨2, [6, 0, 0], 6⟩ } ∧
    (6 : Nat) = 2 + 4 ∧
    ¬ ((6 : Nat) = 2 + 5) := by
  exact ⟨by decide, by decide, by decide, by decide, by decide, by decide,
    by decide⟩

/-- Two players about to play 2 vs 3: an immediate unique winner. -/
def roundWitnessGame : cardsWar :=
  ⟨[⟨"Q1", [Card.mk 2 "BC"], []⟩, ⟨"Q2", [Card.mk 3 "BS"], []⟩], 0, [], none⟩

/-- Source `roundWitnessGame` after both cards are played. -/
def roundWitnessMid : cardsWar :=
  ⟨[⟨"Q1", [], []⟩, ⟨"Q2", [], []⟩], 1, [], none⟩

/-- C3 (witness): the resolution branch applied to a concrete round. -/
theorem C3_war_witness :
    (get_played_cards id { roundWitnessGame with round := 1 } [0, 1] =
      some ([Card.mk 2 "BC", Card.mk 3 "BS"], roundWitnessMid)) ∧
    (find_winning_players [0, 1] [Card.mk 2 "BC", Card.mk 3 "BS"] = [1]) ∧
    (roundWitnessMid.players[1]? = some ⟨"Q2", [], []⟩) ∧
    (playRound id (0 + 1) roundWitnessGame [0, 1] [] =
      RRes.ok (update_scoreboard (award_cards roundWitnessMid 1
        [Card.mk 2 "BC", Card.mk 3 "BS"] [])) ∧
    (award_cards roundWitnessMid 1
        [Card.mk 2 "BC", Card.mk 3 "BS"] []).players[1]? =
      some ⟨"Q2", [],
        ([] : List Card) ++
        [Card.mk 2 "BC", Card.mk 3 "BS"].filter (fun c => decide (c.number ≠ 0)) ++
        ([] : List Card).filter (fun c => decide (c.number ≠ 0))⟩ ∧
    (∀ j, j ≠ 1 →
      (award_cards roundWitnessMid 1
        [Card.mk 2 "BC", Card.mk 3 "BS"] []).players[j]? =
        roundWitnessMid.players[j]?) ∧
    (update_scoreboard (award_cards roundWitnessMid 1
        [Card.mk 2 "BC", Card.mk 3 "BS"] [])).score =
      roundWitnessGame.score ++
        [mkRow (award_cards roundWitnessMid 1
          [Card.mk 2 "BC", Card.mk 3 "BS"] [])]) :=
  ⟨by decide, by decide, by decide,
    C3_war.2.1 id 0 roundWitnessGame roundWitnessMid [0, 1] []
      [Card.mk 2 "BC", Card.mk 3 "BS"] 1 ⟨"Q2", [], []⟩
      (by decide) (by decide) (by decide)⟩

/-- C4 (confirmed): `playCard` returns the sentinel without mutation on a
zero score; otherwise it pops the draw_queue front in FIFO order, after a
refill from the won pile exactly when the draw_queue is empty. -/
theorem C4_playCard :
    ∀ (shuffle : List Card → List Card) (p : Player), validShuffle shuffle →
      (p.score = 0 → p.playCard shuffle = some (Card.sentinel, p)) ∧
      (∀ c rest, p.hand = c :: rest →
        p.playCard shuffle = some (c, ⟨p.name, rest, p.won_cards⟩)) ∧
      (p.score ≠ 0 → p.hand = [] →
        ∃ c rest, dequeMax 56 (shuffle p.won_cards) = c :: rest ∧
          p.playCard shuffle = some (c, ⟨p.name, rest, []⟩)) ∧
      (∀ c p', p.playCard shuffle = some (c, p') → p.score ≠ 0 →
        p'.score + 1 ≤ p.score ∧ c ∈ p.cards) := by
  intro shuffle p hsv
  refine ⟨playCard_zero, ?_, ?_, ?_⟩
  · intro c rest hh
    exact playCard_cons hh
  · intro hs hh
    exact playCard_refill hh hs (hsv _)
  · intro c p' hpc hs
    refine ⟨?_, playCard_card_mem (hsv _) hs hpc⟩
    have := playCard_score_lt (hsv _) hs hpc
    omega

/-- C4 (witness): the FIFO branch and the refill branch at concrete
players. -/
theorem C4_playCard_witness :
    validShuffle id ∧
    ((Player.mk "A" [Card.mk 4 "BC", Card.mk 9 "RD"] []).playCard id =
      some (Card.mk 4 "BC", ⟨"A", [Card.mk 9 "RD"], []⟩)) ∧
    ((Player.mk "A" [] [Card.mk 5 "RH"]).playCard id =
      some (Card.mk 5 "RH", ⟨"A", [], []⟩)) := by
  refine ⟨validShuffle_id, ?_, ?_⟩
  · exact (C4_playCard id (Player.mk "A" [Card.mk 4 "BC", Card.mk 9 "RD"] [])
      validShuffle_id).2.1 (Card.mk 4 "BC") [Card.mk 9 "RD"] rfl
  · obtain ⟨c, rest, hcr, heq⟩ :=
      (C4_playCard id (Player.mk "A" [] [Card.mk 5 "RH"])
        validShuffle_id).2.2.1 (by decide) rfl
    have hc : c = Card.mk 5 "RH" ∧ rest = [] := by
      have : dequeMax 56 (id [Card.mk 5 "RH"]) = [Card.mk 5 "RH"] := by decide
      rw [this] at hcr
      exact ⟨((List.cons.injEq _ _ _ _).mp hcr.symm).1,
        ((List.cons.injEq _ _ _ _).mp hcr.symm).2⟩
    rw [hc.1, hc.2] at heq
    exact heq

/-- C5 (confirmed): construction succeeds exactly for player counts that
are at least 2 and divide 56 (so 3 fails), and a successful construction
starts with exactly `n` card-less players, round 0 and an empty score
table; a failed assert builds no game state at all (`none`). -/
theorem C5_construction :
    ∀ n : Nat,
      ((mkCardsWar n).isSome ↔ (2 ≤ n ∧ 56 % n = 0)) ∧
      (∀ g, mkCardsWar n = some g →
        g.players.length = n ∧ g.round = 0 ∧ g.score = [] ∧
        g.latestResults = none ∧
        ∀ p ∈ g.players, p.hand = [] ∧ p.won_cards = []) ∧
      (mkCardsWar 3 = none) := by
  intro n
  refine ⟨mkCardsWar_isSome_iff, ?_, by decide⟩
  intro g hg
  obtain ⟨_, _, h3, h4, h5, h6, h7⟩ := mkCardsWar_some hg
  exact ⟨h3, h4, h5, h6, h7⟩

/-- C5 (witness): instantiated at 2 (accepted) — and the rejected count 3
is part of the applied statement itself. -/
theorem C5_construction_witness :
    ((mkCardsWar 2).isSome ↔ (2 ≤ 2 ∧ 56 % 2 = 0)) ∧
    (mkCardsWar 2 = some freshTwoPlayerGame) ∧
    (freshTwoPlayerGame.players.length = 2 ∧ freshTwoPlayerGame.round = 0 ∧
      freshTwoPlayerGame.score = [] ∧
      freshTwoPlayerGame.latestResults = none ∧
      ∀ p ∈ freshTwoPlayerGame.players, p.hand = [] ∧ p.won_cards = []) ∧
    (mkCardsWar 3 = none) :=
  ⟨(C5_construction 2).1, by decide,
    (C5_construction 2).2.1 freshTwoPlayerGame (by decide),
    (C5_construction 2).2.2⟩

/-- C6 (confirmed): a score-0 player plays the sentinel; every member of
the winning set computed by `find_winning_players` played a non-sentinel
card at its slot (so sentinel players are never in the winning set and can
never win a round outright); and if every played card is a sentinel the
winning set is empty — sentinels are ignored entirely. -/
theorem C6_sentinel_never_wins :
    (∀ (shuffle : List Card → List Card) (p : Player), p.score = 0 →
      p.playCard shuffle = some (Card.sentinel, p)) ∧
    (∀ (active : List Nat) (cards : List Card) (i : Nat),
      i ∈ find_winning_players active cards →
      ∃ c, (i, c) ∈ active.zip cards ∧ c.number ≠ 0) ∧
    (∀ (active : List Nat) (cards : List Card),
      (∀ pr ∈ active.zip cards, (Prod.snd pr).number = 0) →
      find_winning_players active cards = []) := by
  refine ⟨?_, ?_, ?_⟩
  · intro shuffle p hs
    exact playCard_zero hs
  · intro active cards i h
    exact fw_mem h
  · intro active cards h
    exact fw_eq_nil_iff.mpr h

/-- C6 (witness): slot 0 plays a sentinel, slot 1 plays a 5 and wins; the
winner's membership yields the non-sentinel slot, and an all-sentinel round
yields no winners. -/
theorem C6_sentinel_never_wins_witness :
    ((Player.mk "Z" [] []).playCard id = some (Card.sentinel, Player.mk "Z" [] [])) ∧
    (find_winning_players [0, 1] [Card.sentinel, Card.mk 5 "BC"] = [1]) ∧
    (∃ c, (1, c) ∈ [0, 1].zip [Card.sentinel, Card.mk 5 "BC"] ∧ c.number ≠ 0) ∧
    (find_winning_players [0, 1] [Card.sentinel, Card.sentinel] = []) :=
  ⟨C6_sentinel_never_wins.1 id (Player.mk "Z" [] []) rfl,
    by decide,
    C6_sentinel_never_wins.2.1 [0, 1] [Card.sentinel, Card.mk 5 "BC"] 1
      (by decide),
    C6_sentinel_never_wins.2.2 [0, 1] [Card.sentinel, Card.sentinel]
      (by decide)⟩

/-- C7 (confirmed): from any state with only real cards in play (true of
every state reachable from a full 52-card deal), distinct in-range active
indices and a permuting shuffle, `playRound` called with fuel exceeding the
active players' total card count never exhausts it — each war layer
strictly consumes at least one card from every tied player — and ends
either resolved with a unique winner (`ok`) or at the empty-winner-set
failure with every player of the final tied set holding zero cards. -/
theorem C7_war_terminates :
    ∀ (shuffle : List Card → List Card) (fuel : Nat) (g : cardsWar)
      (active : List Nat) (field : List Card),
      validShuffle shuffle → active.Nodup →
      (∀ i ∈ active, i < g.players.length) → noZero g →
      sumScores g active < fuel →
      ((∃ g', playRound shuffle fuel g active field = RRes.ok g') ∨
        (∃ g' act, playRound shuffle fuel g active field = RRes.idxErr g' act ∧
          ∀ i ∈ act, scoreAt g' i = 0)) ∧
      playRound shuffle fuel g active field ≠ RRes.noFuel := by
  intro shuffle fuel g active field hsv hnd hv hz hfuel
  have h := playRound_resolves hsv fuel g active field hnd hv hz hfuel
  refine ⟨h, ?_⟩
  rcases h with ⟨g', h⟩ | ⟨g', act, h, _⟩ <;> rw [h] <;> intro hcon <;> cases hcon

/-- C7 (witness): a concrete two-player state with two cards in play and
fuel 3 resolves. -/
theorem C7_war_terminates_witness :
    validShuffle id ∧ ([0, 1] : List Nat).Nodup ∧
    (∀ i ∈ ([0, 1] : List Nat), i < roundWitnessGame.players.length) ∧
    noZero roundWitnessGame ∧ sumScores roundWitnessGame [0, 1] < 3 ∧
    (((∃ g', playRound id 3 roundWitnessGame [0, 1] [] = RRes.ok g') ∨
      (∃ g' act, playRound id 3 roundWitnessGame [0, 1] [] =
        RRes.idxErr g' act ∧ ∀ i ∈ act, scoreAt g' i = 0)) ∧
      playRound id 3 roundWitnessGame [0, 1] [] ≠ RRes.noFuel) := by
  have hz : noZero roundWitnessGame := by
    unfold noZero Player.cards
    decide
  have hs : sumScores roundWitnessGame [0, 1] < 3 := by
    unfold sumScores scoreAt
    decide
  exact ⟨validShuffle_id, by decide, by decide, hz, hs,
    C7_war_terminates id 3 roundWitnessGame [0, 1] [] validShuffle_id
      (by decide) (by decide) hz hs⟩

/-- C8 (confirmed): `update_scoreboard` is a pure append of one row whose
`Total` is by construction the sum of the per-player columns; a resolved
round appends exactly one such row to the untouched previous rows, and the
whole game loop only ever appends consistent rows in order. -/
theorem C8_scoreboard :
    (∀ g : cardsWar, (update_scoreboard g).score = g.score ++ [mkRow g] ∧
      (mkRow g).total = (mkRow g).playerScores.sum) ∧
    (∀ (shuffle : List Card → List Card) (fuel : Nat) (g : cardsWar)
      (active : List Nat) (field : List Card) (g' : cardsWar),
      playRound shuffle fuel g active field = RRes.ok g' →
      ∃ r, g'.score = g.score ++ [r] ∧ r.total = r.playerScores.sum) ∧
    (∀ (shuffle : List Card → List Card) (fuel : Nat) (g g' : cardsWar),
      playGameLoop shuffle fuel g = GRes.ok g' →
      ∃ rows, g'.score = g.score ++ rows ∧
        ∀ r ∈ rows, r.total = r.playerScores.sum) := by
  refine ⟨?_, ?_, ?_⟩
  · intro g
    exact ⟨(update_scoreboard_spec g).1, mkRow_total g⟩
  · intro shuffle fuel g active field g' h
    exact playRound_score_append fuel g active field g' h
  · intro shuffle fuel g g' h
    exact playGameLoop_score fuel g g' h

/-- The resolved `roundWitnessGame`: player 2 captured both cards and one
row was appended. -/
def warGameRowState : cardsWar :=
  ⟨[⟨"Q1", [], []⟩, ⟨"Q2", [], [Card.mk 2 "BC", Card.mk 3 "BS"]⟩], 1,
    [⟨1, [0, 2], 2⟩], some ⟨1, [0, 2], 2⟩⟩

/-- C8 (witness): one resolved round appends exactly its one consistent
row. -/
theorem C8_scoreboard_witness :
    ((update_scoreboard roundWitnessGame).score =
      roundWitnessGame.score ++ [mkRow roundWitnessGame] ∧
      (mkRow roundWitnessGame).total =
        (mkRow roundWitnessGame).playerScores.sum) ∧
    (playRound id 3 roundWitnessGame [0, 1] [] = RRes.ok warGameRowState ∧
      ∃ r, warGameRowState.score = roundWitnessGame.score ++ [r] ∧
        r.total = r.playerScores.sum) := by
  refine ⟨(C8_scoreboard.1 roundWitnessGame), ?_, ?_⟩
  · decide
  · exact C8_scoreboard.2.1 id 3 roundWitnessGame [0, 1] [] warGameRowState
      (by decide)

/-- C9 (confirmed): `isWinner` is true exactly when a player holds at least
52 cards; and in the seeded two-player game where player 1's dealt half
positionally outranks player 2's at every round, the game ends with player
1 at 52 cards, `isWinner` true, exactly 27 scoreboard rows (round-0 deal
row plus 26 rounds) and the round counter at 26 — no tie ever fires. -/
theorem C9_game_over :
    (∀ g : cardsWar, isWinner g = true ↔ ∃ p ∈ g.players, 52 ≤ p.score) ∧
    targetDeck.Perm baseDeck ∧
    ((mkCardsWar 2).map (fun g0 =>
      match playGame scenarioShuffle 40 g0 with
      | GRes.ok gf =>
          (gf.score.length, isWinner gf, gf.players.map Player.score, gf.round)
      | GRes.err => (0, false, [], 0)
      | GRes.noFuel => (1, false, [], 1)) =
      some (27, true, [52, 0], 26)) :=
  ⟨isWinner_iff, targetDeck_perm, by decide⟩

/-- C9 (witness): the ≥ 52 test instantiated on a player holding exactly
the full deck's worth of cards. -/
theorem C9_game_over_witness :
    (∃ p ∈ ([⟨"W", List.replicate 52 (Card.mk 1 "BC"), []⟩] : List Player),
      52 ≤ p.score) ∧
    isWinner ⟨[⟨"W", List.replicate 52 (Card.mk 1 "BC"), []⟩], 0, [], none⟩ =
      true := by
  have hp : ∃ p ∈ ([⟨"W", List.replicate 52 (Card.mk 1 "BC"), []⟩] : List Player),
      52 ≤ p.score := ⟨⟨"W", List.replicate 52 (Card.mk 1 "BC"), []⟩,
        List.mem_singleton.mpr rfl, by decide⟩
  exact ⟨hp,
    (C9_game_over.1 ⟨[⟨"W", List.replicate 52 (Card.mk 1 "BC"), []⟩], 0, [],
      none⟩).mpr hp⟩

/-- C10 (confirmed): when every active player's score is 0, the sentinel
plays leave all players untouched, the computed winning set is empty, and
`playRound` ends at the `winingPlayers[0]` IndexError — after the global
round counter was already incremented and the sentinel plays drained, so
the failure is not atomic with respect to the round counter. -/
theorem C10_all_sentinel_raises :
    ∀ (shuffle : List Card → List Card) (g : cardsWar) (active : List Nat)
      (field : List Card) (fuel : Nat),
      (∀ i ∈ active, i < g.players.length ∧ scoreAt g i = 0) →
      get_played_cards shuffle { g with round := g.round + 1 } active =
        some (List.replicate active.length Card.sentinel,
          { g with round := g.round + 1 }) ∧
      find_winning_players active
        (List.replicate active.length Card.sentinel) = [] ∧
      playRound shuffle (fuel + 1) g active field =
        RRes.idxErr { g with round := g.round + 1 } active ∧
      ({ g with round := g.round + 1 } : cardsWar).players = g.players ∧
      ({ g with round := g.round + 1 } : cardsWar).round = g.round + 1 ∧
      ({ g with round := g.round + 1 } : cardsWar).score = g.score := by
  intro shuffle g active field fuel hv
  have hgpc := @gpc_all_zero shuffle active { g with round := g.round + 1 } hv
  have hfw : find_winning_players active
      (List.replicate active.length Card.sentinel) = [] := by
    apply fw_eq_nil_iff.mpr
    intro pr hpr
    obtain ⟨a, b⟩ := pr
    have hb : b ∈ List.replicate active.length Card.sentinel :=
      (List.of_mem_zip hpr).2
    rw [List.eq_of_mem_replicate hb]
    rfl
  exact ⟨hgpc, hfw, playRound_succ_nil hgpc hfw, rfl, rfl, rfl⟩

/-- C10 (witness): reachable concretely — a freshly constructed two-player
game (cards not yet dealt) has both scores 0; its first round raises with
the round counter already at 1. -/
theorem C10_all_sentinel_raises_witness :
    (∀ i ∈ ([0, 1] : List Nat), i < freshTwoPlayerGame.players.length ∧
      scoreAt freshTwoPlayerGame i = 0) ∧
    (get_played_cards id { freshTwoPlayerGame with round := 1 } [0, 1] =
        some (List.replicate 2 Card.sentinel,
          { freshTwoPlayerGame with round := 1 }) ∧
      find_winning_players [0, 1] (List.replicate 2 Card.sentinel) = [] ∧
      playRound id 1 freshTwoPlayerGame [0, 1] [] =
        RRes.idxErr { freshTwoPlayerGame with round := 1 } [0, 1] ∧
      ({ freshTwoPlayerGame with round := 1 } : cardsWar).players =
        freshTwoPlayerGame.players ∧
      ({ freshTwoPlayerGame with round := 1 } : cardsWar).round = 1 ∧
      ({ freshTwoPlayerGame with round := 1 } : cardsWar).score =
        freshTwoPlayerGame.score) := by
  have hv : ∀ i ∈ ([0, 1] : List Nat),
      i < freshTwoPlayerGame.players.length ∧
      scoreAt freshTwoPlayerGame i = 0 := by decide
  exact ⟨hv, C10_all_sentinel_raises id freshTwoPlayerGame [0, 1] [] 0 hv⟩
